import Mathlib

/-!
Verification development for the Payment-Tracker repository.

The Python sources are shallowly embedded:
  * strings are `List Char`;
  * the regular-expression rules of `PaymentExtractor._extract_amount`
    (src/paytment_extractor.py, lines 233-295) are embedded as explicit
    leftmost-search, greedy-with-backtracking matchers, one per pattern,
    mirroring the semantics of Python `re.search` with `re.IGNORECASE`
    restricted to the ASCII texts the rules mention;
  * `NotionClient.create_payment_records` (src/notion_client.py) and
    `SheetsClient.create_payment_records` (src/sheets_client.py) are embedded
    as pure state-passing functions; the external store is the list of
    already-written rows, the possible failure of the duplicate read and of
    the record writes are explicit boolean parameters (a failed call in the
    source is a caught exception, modelled as the `false` value);
  * parsing of RFC-2822 date strings is done by the Python standard library
    (`email.utils.parsedate_to_datetime`), not by repository code; it is
    abstracted: a payment carries the parsed event time as `Option Int`
    (seconds; `none` when the string is absent or unparseable).
-/

/-! ## Character classes (ASCII fragment of Python `re` classes) -/

/-- Python `\s` (ASCII whitespace plus the no-break space). -/
def isWsChar (c : Char) : Bool :=
  c = ' ' || c = '\t' || c = '\n' || c = '\r' || c = '\x0b' || c = '\x0c' || c = '\xa0'

/-- The class `[0-9,]` of the amount patterns. -/
def isDigitCommaChar (c : Char) : Bool :=
  c.isDigit || c = ','

/-- The class `[A-Z]` under `re.IGNORECASE`, ASCII fragment. -/
def isAsciiAlpha (c : Char) : Bool :=
  ('A' ≤ c && c ≤ 'Z') || ('a' ≤ c && c ≤ 'z')

/-- Case-insensitive comparison of one text character `c` against one
lowercase pattern character `l` (model of `re.IGNORECASE` on ASCII). -/
def charCI (l c : Char) : Bool :=
  c = l || c = l.toUpper

/-- Uppercase a string, model of Python `str.upper` on ASCII. -/
def upperL (s : List Char) : List Char := s.map Char.toUpper

/-- Model of `str.replace(",", "")`. -/
def stripCommas (s : List Char) : List Char := s.filter (fun c => c ≠ ',')

/-! ## `PaymentExtractor._clean_html_text` (src/paytment_extractor.py, 35-59) -/

/-- Model of the Python stdlib `html.unescape` restricted to the most common
entities; any other entity text passes through unchanged.  (The repository
code calls the stdlib here; entity decoding beyond this table never matters
for the concrete inputs used below.) -/
def htmlUnescape : List Char → List Char
  | '&' :: 'a' :: 'm' :: 'p' :: ';' :: rest => '&' :: htmlUnescape rest
  | '&' :: 'l' :: 't' :: ';' :: rest => '<' :: htmlUnescape rest
  | '&' :: 'g' :: 't' :: ';' :: rest => '>' :: htmlUnescape rest
  | '&' :: 'q' :: 'u' :: 'o' :: 't' :: ';' :: rest => '"' :: htmlUnescape rest
  | '&' :: 'n' :: 'b' :: 's' :: 'p' :: ';' :: rest => '\xa0' :: htmlUnescape rest
  | c :: rest => c :: htmlUnescape rest
  | [] => []

/-- Model of `re.sub(r"=3D", "=", text)`: one left-to-right pass, the
replacement is not rescanned. -/
def subst3D : List Char → List Char
  | '=' :: '3' :: 'D' :: rest => '=' :: subst3D rest
  | c :: rest => c :: subst3D rest
  | [] => []

/-- Model of `re.sub(r"=\n", "", text)`. -/
def removeEqNl : List Char → List Char
  | '=' :: '\n' :: rest => removeEqNl rest
  | c :: rest => c :: removeEqNl rest
  | [] => []

/-- One-pass scanner for `re.sub(r"<[^>]+>", " ", text)`: in the `none`
state no tag is open; in the `some buf` state a `<` has been read and `buf`
holds the reversed characters read since (the class `[^>]+` accepts any
character except `>`, so a tag candidate ends at the first `>`).  A tag
with an empty body (`<>`) is not a match; a tag that never closes is
emitted literally at the end of input, exactly as the regex leaves it. -/
def stripTagsAux : Option (List Char) → List Char → List Char
  | none, [] => []
  | some buf, [] => '<' :: buf.reverse
  | none, c :: rest =>
    if c = '<' then stripTagsAux (some []) rest
    else c :: stripTagsAux none rest
  | some buf, c :: rest =>
    if c = '>' then
      if buf = [] then '<' :: '>' :: stripTagsAux none rest
      else ' ' :: stripTagsAux none rest
    else stripTagsAux (some (c :: buf)) rest

/-- Model of `re.sub(r"<[^>]+>", " ", text)`: leftmost, non-overlapping. -/
def stripTags (s : List Char) : List Char :=
  stripTagsAux none s

/-- One-pass scanner for `re.sub(r"\s+", " ", text)`: the flag records
whether the previous character was part of a whitespace run already
replaced by one space. -/
def collapseWsAux : Bool → List Char → List Char
  | _, [] => []
  | inWs, c :: rest =>
    if isWsChar c then
      if inWs then collapseWsAux true rest
      else ' ' :: collapseWsAux true rest
    else c :: collapseWsAux false rest

/-- Model of `re.sub(r"\s+", " ", text)`. -/
def collapseWs (s : List Char) : List Char :=
  collapseWsAux false s

/-- Model of Python `str.strip()` (whitespace at both ends). -/
def trimWs (s : List Char) : List Char :=
  ((s.dropWhile isWsChar).reverse.dropWhile isWsChar).reverse

/-- `PaymentExtractor._clean_html_text`: decode entities, undo the
quoted-printable artifacts `=3D` and `=\n`, strip tags, collapse whitespace
runs, trim.  The logging calls of the source have no effect on the result. -/
def clean_html_text (t : List Char) : List Char :=
  trimWs (collapseWs (stripTags (removeEqNl (subst3D (htmlUnescape t)))))

/-! ## Regular-expression matchers for `_extract_amount`

Each of the six patterns of `_extract_amount` is embedded as a matcher that
attempts the pattern at the start of a suffix; `searchWith` then scans the
suffixes left to right, which is exactly the `re.search` strategy.  The
amount group `([0-9,]+\.?[0-9]*)` is greedy with backtracking; when something
follows the group in the pattern this is implemented by the
`matchIntRest` / `matchDotRest` / `matchFracRest` cascade, which tries the
longer alternative first and falls back, exactly like the Python engine. -/

/-- Match a lowercase literal case-insensitively at the start, returning the
remainder (model of a literal in a pattern compiled with `re.IGNORECASE`). -/
def matchLitCI : List Char → List Char → Option (List Char)
  | [], s => some s
  | _ :: _, [] => none
  | l :: ls, c :: cs => if charCI l c then matchLitCI ls cs else none

/-- The literal `has sent you` of patterns 1 and 2. -/
def phraseChars : List Char :=
  ['h', 'a', 's', ' ', 's', 'e', 'n', 't', ' ', 'y', 'o', 'u']

/-- Model of `\s+` followed by a non-whitespace-starting remainder of the
pattern: at least one whitespace character, then maximal munch (no
backtracking is needed because in every pattern below the piece after the
whitespace cannot start with whitespace). -/
def wsPlus : List Char → Option (List Char)
  | [] => none
  | c :: cs => if isWsChar c then some (cs.dropWhile isWsChar) else none

/-- First result of an option-returning function over a list (model of a
regex alternation tried left to right). -/
def firstSome (f : α → Option β) : List α → Option β
  | [] => none
  | a :: as =>
    match f a with
    | some b => some b
    | none => firstSome f as

/-- A currency-code alternation such as `(PHP|USD|EUR|GBP|CAD)`: the
alternatives in order, each a lowercase 3-letter literal matched
case-insensitively; returns the text that matched (original case) and the
remainder. -/
def codeAlt (lits : List (List Char)) (s : List Char) : Option (List Char × List Char) :=
  firstSome (fun lit => (matchLitCI lit s).map (fun r => (s.take 3, r))) lits

/-- Alternation order of pattern 1: `(PHP|USD|EUR|GBP|CAD)`. -/
def codesPat1 : List (List Char) :=
  [['p', 'h', 'p'], ['u', 's', 'd'], ['e', 'u', 'r'], ['g', 'b', 'p'], ['c', 'a', 'd']]

/-- Alternation order of patterns 5 and 6: `(USD|PHP|EUR|GBP|CAD)`. -/
def codesPat56 : List (List Char) :=
  [['u', 's', 'd'], ['p', 'h', 'p'], ['e', 'u', 'r'], ['g', 'b', 'p'], ['c', 'a', 'd']]

/-- `[A-Z]{3}` under `re.IGNORECASE`. -/
def alpha3 : List Char → Option (List Char × List Char)
  | a :: b :: c :: rest =>
    if isAsciiAlpha a && isAsciiAlpha b && isAsciiAlpha c then some ([a, b, c], rest)
    else none
  | _ => none

/-- Part three of the amount group: `[0-9]*`, greedy, then the continuation
`k`; on failure give digits back one at a time.  `g` is the reversed text
matched by the group so far. -/
def matchFracRest (k : List Char → Option β) (g : List Char) :
    List Char → Option (List Char × β)
  | [] => (k []).map (fun b => (g.reverse, b))
  | c :: cs =>
    if c.isDigit then
      match matchFracRest k (c :: g) cs with
      | some r => some r
      | none => (k (c :: cs)).map (fun b => (g.reverse, b))
    else (k (c :: cs)).map (fun b => (g.reverse, b))

/-- Part two of the amount group: `\.?`, greedy (consume the dot first, fall
back to not consuming it). -/
def matchDotRest (k : List Char → Option β) (g : List Char) (s : List Char) :
    Option (List Char × β) :=
  match s with
  | [] => matchFracRest k g []
  | c :: cs =>
    if c = '.' then
      match matchFracRest k (c :: g) cs with
      | some r => some r
      | none => matchFracRest k g (c :: cs)
    else matchFracRest k g (c :: cs)

/-- Part one of the amount group: the tail of `[0-9,]+`, greedy. -/
def matchIntRest (k : List Char → Option β) (g : List Char) :
    List Char → Option (List Char × β)
  | [] => matchDotRest k g []
  | c :: cs =>
    if isDigitCommaChar c then
      match matchIntRest k (c :: g) cs with
      | some r => some r
      | none => matchDotRest k g (c :: cs)
    else matchDotRest k g (c :: cs)

/-- The amount group `([0-9,]+\.?[0-9]*)` followed by the rest of the
pattern `k`, with the backtracking order of the Python engine; returns the
group text and the result of `k`. -/
def amountThen (k : List Char → Option β) : List Char → Option (List Char × β)
  | [] => none
  | c :: cs => if isDigitCommaChar c then matchIntRest k [c] cs else none

/-- The amount group when it is the last element of the pattern: plain
maximal munch (`[0-9,]+` nonempty, then `\.?[0-9]*`). -/
def amountMax (s : List Char) : Option (List Char × List Char) :=
  match s.takeWhile isDigitCommaChar with
  | [] => none
  | r1 =>
    match s.dropWhile isDigitCommaChar with
    | '.' :: rest =>
      some (r1 ++ '.' :: rest.takeWhile Char.isDigit, rest.dropWhile Char.isDigit)
    | s1 => some (r1, s1)

/-- Pattern 1, `has sent you\s+([0-9,]+\.?[0-9]*)\s+(PHP|USD|EUR|GBP|CAD)`,
attempted at the start of `s`; returns (amount group, currency group). -/
def matchP1At (s : List Char) : Option (List Char × List Char) :=
  (matchLitCI phraseChars s).bind fun r1 =>
  (wsPlus r1).bind fun r2 =>
  (amountThen (fun rest => (wsPlus rest).bind (codeAlt codesPat1)) r2).map
    (fun x => (x.1, x.2.1))

/-- Pattern 2, `has sent you\s+([0-9,]+\.?[0-9]*)\s*([A-Z]{3})`. -/
def matchP2At (s : List Char) : Option (List Char × List Char) :=
  (matchLitCI phraseChars s).bind fun r1 =>
  (wsPlus r1).bind fun r2 =>
  (amountThen (fun rest => alpha3 (rest.dropWhile isWsChar)) r2).map
    (fun x => (x.1, x.2.1))

/-- Pattern 3, `PHP\s*([0-9,]+\.?[0-9]*)`. -/
def matchP3At (s : List Char) : Option (List Char × List Char) :=
  (matchLitCI ['p', 'h', 'p'] s).bind fun r1 =>
  amountMax (r1.dropWhile isWsChar)

/-- Pattern 4, `[\$₱€£¥]([0-9,]+\.?[0-9]*)`. -/
def matchP4At : List Char → Option (List Char × List Char)
  | [] => none
  | c :: cs =>
    if c = '$' || c = '₱' || c = '€' || c = '£' || c = '¥' then amountMax cs
    else none

/-- Pattern 5, `([0-9,]+\.?[0-9]*)\s*(USD|PHP|EUR|GBP|CAD)`. -/
def matchP5At (s : List Char) : Option (List Char × List Char) :=
  (amountThen (fun rest => codeAlt codesPat56 (rest.dropWhile isWsChar)) s).map
    (fun x => (x.1, x.2.1))

/-- Pattern 6, `(USD|PHP|EUR|GBP|CAD)\s*([0-9,]+\.?[0-9]*)`; the first group
is the currency code, the second the number. -/
def matchP6At (s : List Char) : Option (List Char × List Char) :=
  (codeAlt codesPat56 s).bind fun x =>
  (amountMax (x.2.dropWhile isWsChar)).map (fun y => (x.1, y.1))

/-- `re.search`: try the pattern at each suffix, leftmost first. -/
def searchWith (m : List Char → Option α) : List Char → Option α
  | [] => none
  | c :: cs =>
    match m (c :: cs) with
    | some r => some r
    | none => searchWith m cs

/-- Python `"usd" in text.upper()` and the like: case-insensitive substring
test. -/
def substrCI (needle : List Char) (hay : List Char) : Bool :=
  (searchWith (matchLitCI needle) hay).isSome || (matchLitCI needle []).isSome

/-- Currency selection of the one-group branch for pattern 4
(src/paytment_extractor.py, 264-271): scan the cleaned text for dollar,
USD, euro, EUR, pound, GBP markers, in that order; default to PHP. -/
def symbolCurrency (clean : List Char) : List Char :=
  if clean.contains '$' || substrCI ['u', 's', 'd'] clean then ['U', 'S', 'D']
  else if clean.contains '€' || substrCI ['e', 'u', 'r'] clean then ['E', 'U', 'R']
  else if clean.contains '£' || substrCI ['g', 'b', 'p'] clean then ['G', 'B', 'P']
  else ['P', 'H', 'P']

/-- `PaymentExtractor._extract_amount` after cleaning, also reporting which
pattern matched (the loop index `i` of the source).  Patterns 1 and 2 and 5
are two-group patterns handled by the `len(groups) == 2` branch
(`amount = groups[0].replace(",", "")`, `currency = groups[1].upper() or
default PHP`); patterns 3 and 4 are one-group patterns handled by the
`len(groups) == 1` branch (PHP for the PHP pattern, otherwise the
text scan `symbolCurrency`); pattern 6 also lands in the two-group branch,
so its currency group becomes the amount and its number group becomes the
currency, exactly as in the source. -/
def extractAmountClean (clean : List Char) : Option (Nat × List Char × List Char) :=
  match searchWith matchP1At clean with
  | some (a, c) => some (0, stripCommas a, if c = [] then ['P', 'H', 'P'] else upperL c)
  | none =>
  match searchWith matchP2At clean with
  | some (a, c) => some (1, stripCommas a, if c = [] then ['P', 'H', 'P'] else upperL c)
  | none =>
  match searchWith matchP3At clean with
  | some (a, _) => some (2, stripCommas a, ['P', 'H', 'P'])
  | none =>
  match searchWith matchP4At clean with
  | some (a, _) => some (3, stripCommas a, symbolCurrency clean)
  | none =>
  match searchWith matchP5At clean with
  | some (a, c) => some (4, stripCommas a, if c = [] then ['P', 'H', 'P'] else upperL c)
  | none =>
  match searchWith matchP6At clean with
  | some (c, a) => some (5, stripCommas c, if a = [] then ['P', 'H', 'P'] else upperL a)
  | none => none

/-- `PaymentExtractor._extract_amount` (src/paytment_extractor.py, 233-295):
clean the text, try the six patterns in order, return (amount, currency), or
`none` when no pattern matches anywhere. -/
def extract_amount (text : List Char) : Option (List Char × List Char) :=
  (extractAmountClean (clean_html_text text)).map (fun x => (x.2.1, x.2.2))

/-! ## Character-class facts -/

theorem not_ws_of_dc (c : Char) (h : isDigitCommaChar c = true) : isWsChar c = false := by
  by_contra hw
  rw [Bool.not_eq_false] at hw
  simp only [isWsChar, Bool.or_eq_true, decide_eq_true_eq] at hw
  rcases hw with ((((((rfl | rfl) | rfl) | rfl) | rfl) | rfl) | rfl) <;>
    exact absurd h (by decide)

theorem not_ws_of_alpha (c : Char) (h : isAsciiAlpha c = true) : isWsChar c = false := by
  by_contra hw
  rw [Bool.not_eq_false] at hw
  simp only [isWsChar, Bool.or_eq_true, decide_eq_true_eq] at hw
  rcases hw with ((((((rfl | rfl) | rfl) | rfl) | rfl) | rfl) | rfl) <;>
    exact absurd h (by decide)

theorem not_alpha_of_dc (c : Char) (h : isDigitCommaChar c = true) :
    isAsciiAlpha c = false := by
  simp only [isDigitCommaChar, Bool.or_eq_true, decide_eq_true_eq] at h
  simp only [isAsciiAlpha, Bool.or_eq_true, Bool.and_eq_true, decide_eq_true_eq,
    Bool.or_eq_false_iff, Bool.and_eq_false_iff]
  rcases h with hd | rfl
  · simp only [Char.isDigit, Bool.and_eq_true, decide_eq_true_eq] at hd
    constructor
    · by_cases hA : 'A' ≤ c
      · right
        simp only [decide_eq_false_iff_not]
        intro hZ
        exact absurd (UInt32.le_trans (Char.le_def.mp hA) hd.2) (by decide)
      · left
        simp only [decide_eq_false_iff_not]
        exact hA
    · by_cases ha : 'a' ≤ c
      · right
        simp only [decide_eq_false_iff_not]
        intro hz
        exact absurd (UInt32.le_trans (Char.le_def.mp ha) hd.2) (by decide)
      · left
        simp only [decide_eq_false_iff_not]
        exact ha
  · decide

/-! ## Lemmas about the literal and search combinators -/

theorem matchLitCI_append_self : ∀ (lit r : List Char),
    matchLitCI lit (lit ++ r) = some r := by
  intro lit
  induction lit with
  | nil => intro r; rfl
  | cons l ls ih =>
    intro r
    rw [List.cons_append, matchLitCI, if_pos (by simp [charCI])]
    exact ih r

theorem matchLitCI_prefix : ∀ (lit s r : List Char), matchLitCI lit s = some r →
    ∃ pre, s = pre ++ r ∧ pre.length = lit.length := by
  intro lit
  induction lit with
  | nil =>
    intro s r h
    rw [matchLitCI] at h
    cases h
    exact ⟨[], rfl, rfl⟩
  | cons l ls ih =>
    intro s r h
    match s with
    | [] => exact absurd h (by rw [matchLitCI]; simp)
    | c :: cs =>
      rw [matchLitCI] at h
      by_cases hc : charCI l c = true
      · rw [if_pos hc] at h
        obtain ⟨pre, hpre, hlen⟩ := ih cs r h
        exact ⟨c :: pre, by rw [hpre]; rfl, by simp [hlen]⟩
      · rw [if_neg hc] at h
        cases h

theorem searchWith_some {α : Type} (m : List Char → Option α) :
    ∀ (l : List Char) (x : α), searchWith m l = some x → ∃ s, m s = some x := by
  intro l
  induction l with
  | nil => intro x h; rw [searchWith] at h; cases h
  | cons c cs ih =>
    intro x h
    rw [searchWith] at h
    cases hm : m (c :: cs) with
    | some y => rw [hm] at h; cases h; exact ⟨c :: cs, hm⟩
    | none => rw [hm] at h; exact ih x h

theorem searchWith_append_none {α : Type} (m : List Char → Option α) :
    ∀ (pre rest : List Char),
    (∀ a b, pre = a ++ b → b ≠ [] → m (b ++ rest) = none) →
    searchWith m (pre ++ rest) = searchWith m rest := by
  intro pre
  induction pre with
  | nil => intro rest _; rfl
  | cons c cs ih =>
    intro rest h
    have hm : m (c :: (cs ++ rest)) = none := by
      have := h [] (c :: cs) rfl (by simp)
      rwa [List.cons_append] at this
    rw [List.cons_append, searchWith, hm]
    exact ih rest (fun a b hab hb => h (c :: a) b (by rw [hab]; rfl) hb)

theorem searchWith_none {α : Type} (m : List Char → Option α) :
    ∀ (l : List Char), (∀ a b, l = a ++ b → b ≠ [] → m b = none) →
    searchWith m l = none := by
  intro l
  induction l with
  | nil => intro _; rfl
  | cons c cs ih =>
    intro h
    rw [searchWith, h [] (c :: cs) rfl (by simp)]
    exact ih (fun a b hab hb => h (c :: a) b (by rw [hab]; rfl) hb)

/-! ## Occurrences of the phrase -/

/-- The suffix begins with `has sent you`, case-insensitively. -/
def startsWithPhraseCI (s : List Char) : Bool :=
  (matchLitCI phraseChars s).isSome

/-- Number of case-insensitive occurrences of `has sent you`. -/
def phraseCount : List Char → Nat
  | [] => 0
  | c :: cs => (if startsWithPhraseCI (c :: cs) then 1 else 0) + phraseCount cs

theorem phraseCount_append_le : ∀ (a b : List Char),
    phraseCount b ≤ phraseCount (a ++ b) := by
  intro a
  induction a with
  | nil => intro b; exact le_refl _
  | cons c cs ih =>
    intro b
    rw [List.cons_append, phraseCount]
    exact le_trans (ih b) (Nat.le_add_left _ _)

theorem phraseCount_pos_of_starts : ∀ (b : List Char),
    startsWithPhraseCI b = true → 1 ≤ phraseCount b := by
  intro b h
  match b with
  | [] => exact absurd h (by decide)
  | c :: cs =>
    rw [phraseCount, if_pos h]
    exact Nat.le_add_right _ _

theorem phrase_two_positions (l : List Char) (a1 b1 a2 b2 : List Char)
    (h1 : l = a1 ++ b1) (hs1 : startsWithPhraseCI b1 = true)
    (h2 : l = a2 ++ b2) (hs2 : startsWithPhraseCI b2 = true)
    (hlt : a1.length < a2.length) : 2 ≤ phraseCount l := by
  have hab : a1 ++ b1 = a2 ++ b2 := by rw [← h1, ← h2]
  rcases (List.append_eq_append_iff).mp hab with ⟨mid, hmid, hb1⟩ | ⟨mid, hmid, hb2⟩
  · have hmidne : mid ≠ [] := by
      intro hnil
      rw [hnil, List.append_nil] at hmid
      rw [hmid] at hlt
      exact lt_irrefl _ hlt
    match mid, hmidne with
    | m :: ms, _ =>
      rw [hb1, List.cons_append] at hs1
      rw [h1, hb1, List.cons_append]
      have hge : 1 ≤ phraseCount (ms ++ b2) :=
        le_trans (phraseCount_pos_of_starts b2 hs2) (phraseCount_append_le ms b2)
      have hsplit : phraseCount (m :: (ms ++ b2)) = 1 + phraseCount (ms ++ b2) := by
        rw [phraseCount, if_pos hs1]
      have hmono := phraseCount_append_le a1 (m :: (ms ++ b2))
      omega
  · have : a1.length = a2.length + mid.length := by
      rw [hmid, List.length_append]
    omega

theorem phrase_unique_position (l : List Char) (hcount : phraseCount l = 1)
    (a1 b1 a2 b2 : List Char)
    (h1 : l = a1 ++ b1) (hs1 : startsWithPhraseCI b1 = true)
    (h2 : l = a2 ++ b2) (hs2 : startsWithPhraseCI b2 = true) :
    a1.length = a2.length := by
  rcases Nat.lt_trichotomy a1.length a2.length with hlt | heq | hgt
  · have := phrase_two_positions l a1 b1 a2 b2 h1 hs1 h2 hs2 hlt
    omega
  · exact heq
  · have := phrase_two_positions l a2 b2 a1 b1 h2 hs2 h1 hs1 hgt
    omega

theorem matchP1At_starts (s : List Char) (x : List Char × List Char)
    (h : matchP1At s = some x) : startsWithPhraseCI s = true := by
  rw [matchP1At] at h
  rw [startsWithPhraseCI]
  cases hm : matchLitCI phraseChars s with
  | some r => rfl
  | none => rw [hm] at h; cases h

theorem matchP2At_starts (s : List Char) (x : List Char × List Char)
    (h : matchP2At s = some x) : startsWithPhraseCI s = true := by
  rw [matchP2At] at h
  rw [startsWithPhraseCI]
  cases hm : matchLitCI phraseChars s with
  | some r => rfl
  | none => rw [hm] at h; cases h

/-! ## The amount group against a continuation: success and failure -/

section AmountLemmas

variable {β : Type} (k : List Char → Option β) (rest0 : List Char)

theorem matchFracRest_ok (b : β) (hb : k (' ' :: rest0) = some b) :
    ∀ (ds g : List Char), (∀ c ∈ ds, c.isDigit = true) →
    matchFracRest k g (ds ++ ' ' :: rest0) = some (g.reverse ++ ds, b) := by
  intro ds
  induction ds with
  | nil =>
    intro g _
    rw [List.nil_append, matchFracRest, if_neg (by decide), hb]
    simp
  | cons d ds ih =>
    intro g hds
    have hd : d.isDigit = true := hds d (by simp)
    rw [List.cons_append, matchFracRest, if_pos hd,
      ih (d :: g) (fun c hc => hds c (by simp [hc]))]
    simp

theorem matchDotRest_ok (b : β) (hb : k (' ' :: rest0) = some b)
    (frac : List Char)
    (hfrac : frac = [] ∨ ∃ ds, frac = '.' :: ds ∧ ∀ c ∈ ds, c.isDigit = true) :
    ∀ g, matchDotRest k g (frac ++ ' ' :: rest0) = some (g.reverse ++ frac, b) := by
  intro g
  rcases hfrac with rfl | ⟨ds, rfl, hds⟩
  · rw [List.nil_append, matchDotRest, if_neg (by decide)]
    have := matchFracRest_ok k rest0 b hb [] g (by simp)
    simpa using this
  · rw [List.cons_append, matchDotRest, if_pos rfl,
      matchFracRest_ok k rest0 b hb ds ('.' :: g) hds]
    simp

theorem matchIntRest_ok (b : β) (hb : k (' ' :: rest0) = some b)
    (frac : List Char)
    (hfrac : frac = [] ∨ ∃ ds, frac = '.' :: ds ∧ ∀ c ∈ ds, c.isDigit = true) :
    ∀ (x g : List Char), (∀ c ∈ x, isDigitCommaChar c = true) →
    matchIntRest k g (x ++ frac ++ ' ' :: rest0)
      = some (g.reverse ++ x ++ frac, b) := by
  intro x
  induction x with
  | nil =>
    intro g _
    have hdot := matchDotRest_ok k rest0 b hb frac hfrac g
    rcases hfrac with rfl | ⟨ds, rfl, _⟩
    · rw [List.nil_append, List.nil_append, matchIntRest, if_neg (by decide)]
      simpa using hdot
    · rw [List.nil_append, List.cons_append, matchIntRest, if_neg (by decide)]
      rw [List.cons_append] at hdot
      simpa using hdot
  | cons c x ih =>
    intro g hx
    have hc : isDigitCommaChar c = true := hx c (by simp)
    rw [List.cons_append, List.cons_append, matchIntRest, if_pos hc,
      ih (c :: g) (fun e he => hx e (by simp [he]))]
    simp

theorem amountThen_ok (b : β) (hb : k (' ' :: rest0) = some b)
    (frac : List Char)
    (hfrac : frac = [] ∨ ∃ ds, frac = '.' :: ds ∧ ∀ c ∈ ds, c.isDigit = true)
    (intp : List Char) (hne : intp ≠ [])
    (hint : ∀ c ∈ intp, isDigitCommaChar c = true) :
    amountThen k (intp ++ frac ++ ' ' :: rest0) = some (intp ++ frac, b) := by
  match intp, hne with
  | i :: irest, _ =>
    have hi : isDigitCommaChar i = true := hint i (by simp)
    rw [List.cons_append, List.cons_append, amountThen, if_pos hi,
      matchIntRest_ok k rest0 b hb frac hfrac irest [i]
        (fun c hc => hint c (by simp [hc]))]
    simp

end AmountLemmas

section AmountNoneLemmas

variable {β : Type} (k : List Char → Option β) (rest0 : List Char)

theorem matchFracRest_none
    (hkblind : ∀ (c : Char) (r : List Char),
      isDigitCommaChar c = true ∨ c = '.' → k (c :: r) = none)
    (hknone : k (' ' :: rest0) = none)
    (frac : List Char)
    (hfrac : frac = [] ∨ ∃ ds, frac = '.' :: ds ∧ ∀ c ∈ ds, c.isDigit = true) :
    ∀ (x g : List Char), (∀ c ∈ x, isDigitCommaChar c = true) →
    matchFracRest k g (x ++ (frac ++ ' ' :: rest0)) = none := by
  intro x
  induction x with
  | nil =>
    intro g _
    rcases hfrac with rfl | ⟨ds, rfl, _⟩
    · rw [List.nil_append, List.nil_append, matchFracRest, if_neg (by decide), hknone]
      rfl
    · rw [List.nil_append, List.cons_append, matchFracRest, if_neg (by decide),
        hkblind '.' _ (Or.inr rfl)]
      rfl
  | cons c x ih =>
    intro g hx
    have hc : isDigitCommaChar c = true := hx c (by simp)
    by_cases hcd : c.isDigit = true
    · rw [List.cons_append, matchFracRest, if_pos hcd,
        ih (c :: g) (fun e he => hx e (by simp [he])),
        hkblind c _ (Or.inl hc)]
      rfl
    · rw [List.cons_append, matchFracRest, if_neg hcd, hkblind c _ (Or.inl hc)]
      rfl

theorem matchDotRest_none
    (hkblind : ∀ (c : Char) (r : List Char),
      isDigitCommaChar c = true ∨ c = '.' → k (c :: r) = none)
    (hknone : k (' ' :: rest0) = none)
    (frac : List Char)
    (hfrac : frac = [] ∨ ∃ ds, frac = '.' :: ds ∧ ∀ c ∈ ds, c.isDigit = true) :
    ∀ g, matchDotRest k g (frac ++ ' ' :: rest0) = none := by
  intro g
  rcases hfrac with rfl | ⟨ds, rfl, hds⟩
  · rw [List.nil_append, matchDotRest, if_neg (by decide)]
    have := matchFracRest_none k rest0 hkblind hknone [] (Or.inl rfl) [] g (by simp)
    simpa using this
  · rw [List.cons_append, matchDotRest, if_pos rfl]
    have h1 : matchFracRest k ('.' :: g) (ds ++ ([] ++ ' ' :: rest0)) = none :=
      matchFracRest_none k rest0 hkblind hknone [] (Or.inl rfl) ds ('.' :: g)
        (fun c hc => by rw [isDigitCommaChar, hds c hc]; rfl)
    rw [List.nil_append] at h1
    rw [h1, matchFracRest, if_neg (by decide), hkblind '.' _ (Or.inr rfl)]
    rfl

theorem matchIntRest_none
    (hkblind : ∀ (c : Char) (r : List Char),
      isDigitCommaChar c = true ∨ c = '.' → k (c :: r) = none)
    (hknone : k (' ' :: rest0) = none)
    (frac : List Char)
    (hfrac : frac = [] ∨ ∃ ds, frac = '.' :: ds ∧ ∀ c ∈ ds, c.isDigit = true) :
    ∀ (x g : List Char), (∀ c ∈ x, isDigitCommaChar c = true) →
    matchIntRest k g (x ++ frac ++ ' ' :: rest0) = none := by
  intro x
  induction x with
  | nil =>
    intro g _
    have hdot := matchDotRest_none k rest0 hkblind hknone frac hfrac g
    rcases hfrac with rfl | ⟨ds, rfl, _⟩
    · rw [List.nil_append, List.nil_append, matchIntRest, if_neg (by decide)]
      exact hdot
    · rw [List.nil_append, List.cons_append, matchIntRest, if_neg (by decide)]
      rw [List.cons_append] at hdot
      exact hdot
  | cons c x ih =>
    intro g hx
    have hc : isDigitCommaChar c = true := hx c (by simp)
    have hcnotdot : c ≠ '.' := by
      intro hdot
      rw [hdot] at hc
      exact absurd hc (by decide)
    rw [List.cons_append, List.cons_append, matchIntRest, if_pos hc,
      ih (c :: g) (fun e he => hx e (by simp [he]))]
    rw [matchDotRest, if_neg hcnotdot]
    have hfr := matchFracRest_none k rest0 hkblind hknone frac hfrac (c :: x) g hx
    simpa using hfr

theorem amountThen_none
    (hkblind : ∀ (c : Char) (r : List Char),
      isDigitCommaChar c = true ∨ c = '.' → k (c :: r) = none)
    (hknone : k (' ' :: rest0) = none)
    (frac : List Char)
    (hfrac : frac = [] ∨ ∃ ds, frac = '.' :: ds ∧ ∀ c ∈ ds, c.isDigit = true)
    (intp : List Char) (hne : intp ≠ [])
    (hint : ∀ c ∈ intp, isDigitCommaChar c = true) :
    amountThen k (intp ++ frac ++ ' ' :: rest0) = none := by
  match intp, hne with
  | i :: irest, _ =>
    have hi : isDigitCommaChar i = true := hint i (by simp)
    rw [List.cons_append, List.cons_append, amountThen, if_pos hi]
    exact matchIntRest_none k rest0 hkblind hknone frac hfrac irest [i]
      (fun c hc => hint c (by simp [hc]))

end AmountNoneLemmas

/-! ## Projection lemmas: what a successful match implies -/

theorem firstSome_cases {α β : Type} (f : α → Option β) :
    ∀ (l : List α) (b : β), firstSome f l = some b → ∃ a ∈ l, f a = some b := by
  intro l
  induction l with
  | nil => intro b h; rw [firstSome] at h; cases h
  | cons a as ih =>
    intro b h
    rw [firstSome] at h
    cases hf : f a with
    | some b2 => rw [hf] at h; cases h; exact ⟨a, by simp, hf⟩
    | none =>
      rw [hf] at h
      obtain ⟨a2, hmem, hfa⟩ := ih b h
      exact ⟨a2, by simp [hmem], hfa⟩

theorem codeAlt_some (lits : List (List Char)) (s : List Char) (c r : List Char)
    (h : codeAlt lits s = some (c, r)) :
    ∃ lit ∈ lits, matchLitCI lit s = some r ∧ c = s.take 3 := by
  obtain ⟨lit, hmem, hf⟩ := firstSome_cases _ lits _ h
  cases hm : matchLitCI lit s with
  | none => rw [hm] at hf; cases hf
  | some rr =>
    rw [hm] at hf
    simp at hf
    exact ⟨lit, hmem, by rw [hm, hf.2], hf.1.symm⟩

theorem matchLitCI_three (l1 l2 l3 : Char) (s r : List Char)
    (h : matchLitCI [l1, l2, l3] s = some r) :
    ∃ c1 c2 c3, s = c1 :: c2 :: c3 :: r ∧ charCI l1 c1 = true ∧
      charCI l2 c2 = true ∧ charCI l3 c3 = true := by
  match s with
  | [] => exact absurd h (by rw [matchLitCI]; simp)
  | [c1] =>
    rw [matchLitCI] at h
    by_cases h1 : charCI l1 c1 = true
    · rw [if_pos h1, matchLitCI] at h; cases h
    · rw [if_neg h1] at h; cases h
  | [c1, c2] =>
    rw [matchLitCI] at h
    by_cases h1 : charCI l1 c1 = true
    · rw [if_pos h1, matchLitCI] at h
      by_cases h2 : charCI l2 c2 = true
      · rw [if_pos h2, matchLitCI] at h; cases h
      · rw [if_neg h2] at h; cases h
    · rw [if_neg h1] at h; cases h
  | c1 :: c2 :: c3 :: ss =>
    rw [matchLitCI] at h
    by_cases h1 : charCI l1 c1 = true
    · rw [if_pos h1, matchLitCI] at h
      by_cases h2 : charCI l2 c2 = true
      · rw [if_pos h2, matchLitCI] at h
        by_cases h3 : charCI l3 c3 = true
        · rw [if_pos h3, matchLitCI] at h
          cases h
          exact ⟨c1, c2, c3, rfl, h1, h2, h3⟩
        · rw [if_neg h3] at h; cases h
      · rw [if_neg h2] at h; cases h
    · rw [if_neg h1] at h; cases h

theorem upper_of_charCI (l c : Char) (hl : l.toUpper.toUpper = l.toUpper)
    (h : charCI l c = true) : c.toUpper = l.toUpper := by
  simp only [charCI, Bool.or_eq_true, decide_eq_true_eq] at h
  rcases h with rfl | rfl
  · rfl
  · exact hl

/-- The closed currency set of the data model. -/
def currencySet : List (List Char) :=
  [['U', 'S', 'D'], ['P', 'H', 'P'], ['E', 'U', 'R'], ['G', 'B', 'P'], ['C', 'A', 'D']]

theorem codeAlt_upper_mem (lits : List (List Char))
    (hsub : ∀ lit ∈ lits, lit ∈ codesPat1) (s c r : List Char)
    (h : codeAlt lits s = some (c, r)) :
    c ≠ [] ∧ upperL c ∈ currencySet := by
  obtain ⟨lit, hmem, hmatch, hc⟩ := codeAlt_some lits s c r h
  have hlitmem := hsub lit hmem
  fin_cases hlitmem <;>
  · obtain ⟨c1, c2, c3, hs, h1, h2, h3⟩ := matchLitCI_three _ _ _ s r hmatch
    subst hs
    subst hc
    refine ⟨by simp, ?_⟩
    simp only [List.take, upperL, List.map]
    rw [upper_of_charCI _ c1 (by decide) h1, upper_of_charCI _ c2 (by decide) h2,
      upper_of_charCI _ c3 (by decide) h3]
    decide

theorem symbolCurrency_mem (clean : List Char) :
    symbolCurrency clean ∈ currencySet := by
  rw [symbolCurrency]
  split_ifs <;> decide

/-! ## Projection through the amount group -/

theorem matchFracRest_k {β : Type} (k : List Char → Option β) :
    ∀ (s g : List Char) (x : List Char × β),
    matchFracRest k g s = some x → ∃ r, k r = some x.2 := by
  intro s
  induction s with
  | nil =>
    intro g x h
    rw [matchFracRest] at h
    cases hk : k [] with
    | some b => rw [hk] at h; cases h; exact ⟨[], by rw [hk]⟩
    | none => rw [hk] at h; cases h
  | cons c cs ih =>
    intro g x h
    rw [matchFracRest] at h
    by_cases hcd : c.isDigit = true
    · rw [if_pos hcd] at h
      cases hin : matchFracRest k (c :: g) cs with
      | some r => rw [hin] at h; cases h; exact ih (c :: g) _ hin
      | none =>
        rw [hin] at h
        cases hk : k (c :: cs) with
        | some b => rw [hk] at h; cases h; exact ⟨c :: cs, by rw [hk]⟩
        | none => rw [hk] at h; cases h
    · rw [if_neg hcd] at h
      cases hk : k (c :: cs) with
      | some b => rw [hk] at h; cases h; exact ⟨c :: cs, by rw [hk]⟩
      | none => rw [hk] at h; cases h

theorem matchDotRest_k {β : Type} (k : List Char → Option β)
    (s g : List Char) (x : List Char × β)
    (h : matchDotRest k g s = some x) : ∃ r, k r = some x.2 := by
  match s with
  | [] =>
    rw [matchDotRest] at h
    exact matchFracRest_k k [] g x h
  | c :: cs =>
    rw [matchDotRest] at h
    by_cases hc : c = '.'
    · rw [if_pos hc] at h
      cases hin : matchFracRest k (c :: g) cs with
      | some r => rw [hin] at h; cases h; exact matchFracRest_k k cs (c :: g) _ hin
      | none =>
        rw [hin] at h
        exact matchFracRest_k k (c :: cs) g x h
    · rw [if_neg hc] at h
      exact matchFracRest_k k (c :: cs) g x h

theorem matchIntRest_k {β : Type} (k : List Char → Option β) :
    ∀ (s g : List Char) (x : List Char × β),
    matchIntRest k g s = some x → ∃ r, k r = some x.2 := by
  intro s
  induction s with
  | nil =>
    intro g x h
    rw [matchIntRest] at h
    exact matchDotRest_k k [] g x h
  | cons c cs ih =>
    intro g x h
    rw [matchIntRest] at h
    by_cases hc : isDigitCommaChar c = true
    · rw [if_pos hc] at h
      cases hin : matchIntRest k (c :: g) cs with
      | some r => rw [hin] at h; cases h; exact ih (c :: g) _ hin
      | none =>
        rw [hin] at h
        exact matchDotRest_k k (c :: cs) g x h
    · rw [if_neg hc] at h
      exact matchDotRest_k k (c :: cs) g x h

theorem amountThen_k {β : Type} (k : List Char → Option β)
    (s : List Char) (x : List Char × β)
    (h : amountThen k s = some x) : ∃ r, k r = some x.2 := by
  match s with
  | [] => exact absurd h (by rw [amountThen]; simp)
  | c :: cs =>
    rw [amountThen] at h
    by_cases hc : isDigitCommaChar c = true
    · rw [if_pos hc] at h
      exact matchIntRest_k k cs [c] x h
    · rw [if_neg hc] at h
      cases h

/-! ## Pattern-to-code projections for the currency claims -/

theorem matchP1At_code (s : List Char) (a c : List Char)
    (h : matchP1At s = some (a, c)) :
    ∃ s2 r2, codeAlt codesPat1 s2 = some (c, r2) := by
  rw [matchP1At] at h
  cases e1 : matchLitCI phraseChars s with
  | none => rw [e1] at h; cases h
  | some r1 =>
    simp only [e1, Option.some_bind] at h
    cases e2 : wsPlus r1 with
    | none => rw [e2] at h; cases h
    | some r2 =>
      simp only [e2, Option.some_bind] at h
      cases e3 : amountThen
          (fun rest => (wsPlus rest).bind (codeAlt codesPat1)) r2 with
      | none => rw [e3] at h; cases h
      | some x =>
        rw [e3] at h
        simp at h
        obtain ⟨r4, hk⟩ := amountThen_k _ r2 x e3
        cases e5 : wsPlus r4 with
        | none => rw [e5] at hk; cases hk
        | some r5 =>
          simp only [e5, Option.some_bind] at hk
          refine ⟨r5, x.2.2, ?_⟩
          rw [← h.2, hk]

theorem matchP5At_code (s : List Char) (a c : List Char)
    (h : matchP5At s = some (a, c)) :
    ∃ s2 r2, codeAlt codesPat56 s2 = some (c, r2) := by
  rw [matchP5At] at h
  cases e3 : amountThen
      (fun rest => codeAlt codesPat56 (rest.dropWhile isWsChar)) s with
  | none => rw [e3] at h; cases h
  | some x =>
    rw [e3] at h
    simp at h
    obtain ⟨r4, hk⟩ := amountThen_k _ s x e3
    refine ⟨r4.dropWhile isWsChar, x.2.2, ?_⟩
    rw [← h.2, hk]

theorem searchWith_cons_found {α : Type} (m : List Char → Option α)
    (s : List Char) (x : α) (hs : s ≠ []) (hm : m s = some x) :
    searchWith m s = some x := by
  match s, hs with
  | c :: cs, _ => rw [searchWith, hm]

theorem alpha3_head_not_alpha (c : Char) (r : List Char)
    (h : isAsciiAlpha c = false) : alpha3 (c :: r) = none := by
  match r with
  | [] => rfl
  | [_] => rfl
  | b :: d :: rest => rw [alpha3, if_neg (by simp [h])]

theorem dropWhile_not_head (p : Char → Bool) (c : Char) (l : List Char)
    (h : p c = false) : List.dropWhile p (c :: l) = c :: l := by
  rw [List.dropWhile_cons, if_neg (by rw [h]; simp)]

theorem cons_append_assoc (i0 : Char) (irest frac Y : List Char) :
    (i0 :: irest) ++ frac ++ Y = i0 :: (irest ++ frac ++ Y) := by
  simp

/-! ## Claim theorem: the phrase-anchored rule (C2) -/

/-- Counterexample to claim C2 as stated: a text containing two
phrase-anchored amounts; for the second occurrence (number 2, code EUR) the
premise of the claim holds, but extraction returns the amount and code of
the first, leftmost occurrence. -/
theorem extract_amount_phrase_counterexample :
    clean_html_text ("a has sent you 1 USD b has sent you 2 EUR".data)
        = "a has sent you 1 USD b ".data
          ++ (phraseChars ++ ' ' :: (['2'] ++ [] ++ ' ' :: (['E', 'U', 'R'] ++ []))) ∧
      (∀ c ∈ ['2'], isDigitCommaChar c = true) ∧
      (['E', 'U', 'R'] : List Char).length = 3 ∧
      (∀ c ∈ ['E', 'U', 'R'], isAsciiAlpha c = true) ∧
      extract_amount ("a has sent you 1 USD b has sent you 2 EUR".data)
        = some (['1'], ['U', 'S', 'D']) ∧
      (['1'], ['U', 'S', 'D'])
        ≠ (stripCommas ['2'], upperL ['E', 'U', 'R']) :=
  ⟨by decide, by decide, by decide, by decide, by decide, by decide⟩

/-- Claim C2 (amended): for every text whose cleaned form contains the
phrase `has sent you` followed by a space, a number (digits with optional
comma separators and an optional decimal part), a space, and a 3-letter
code, where that is the only occurrence of the phrase (case-insensitive),
extraction returns exactly that number with commas stripped and that code
uppercased — through the closed-code pattern 1 when the code is one of the
five known currencies, and otherwise through the generic 3-letter
pattern 2. -/
theorem extract_amount_phrase_rule (t pre intp frac code post : List Char)
    (hclean : clean_html_text t
      = pre ++ (phraseChars ++ ' ' :: (intp ++ frac ++ ' ' :: (code ++ post))))
    (hne : intp ≠ [])
    (hint : ∀ c ∈ intp, isDigitCommaChar c = true)
    (hfrac : frac = [] ∨ ∃ ds, frac = '.' :: ds ∧ ∀ c ∈ ds, c.isDigit = true)
    (hlen : code.length = 3)
    (halpha : ∀ c ∈ code, isAsciiAlpha c = true)
    (huniq : phraseCount (clean_html_text t) = 1) :
    extract_amount t = some (stripCommas (intp ++ frac), upperL code) := by
  obtain ⟨c1, c2, c3, rfl⟩ := List.length_eq_three.mp hlen
  obtain ⟨i0, irest, rfl⟩ : ∃ i0 irest, intp = i0 :: irest := by
    match intp, hne with
    | i :: ir, _ => exact ⟨i, ir, rfl⟩
  have hselfstart : startsWithPhraseCI
      (phraseChars ++ ' ' :: ((i0 :: irest) ++ frac ++ ' ' :: ([c1, c2, c3] ++ post)))
        = true := by
    rw [startsWithPhraseCI, matchLitCI_append_self]
    rfl
  have huniqpos : ∀ a b : List Char, clean_html_text t = a ++ b →
      startsWithPhraseCI b = true → a.length = pre.length := fun a b hab hs =>
    phrase_unique_position (clean_html_text t) huniq a b pre _ hab hs hclean hselfstart
  have hskip : ∀ (m : List Char → Option (List Char × List Char)),
      (∀ s x, m s = some x → startsWithPhraseCI s = true) →
      searchWith m (clean_html_text t)
        = searchWith m (phraseChars
            ++ ' ' :: ((i0 :: irest) ++ frac ++ ' ' :: ([c1, c2, c3] ++ post))) := by
    intro m hm
    rw [hclean]
    refine searchWith_append_none m pre
      (phraseChars ++ ' ' :: ((i0 :: irest) ++ frac ++ ' ' :: ([c1, c2, c3] ++ post))) ?_
    intro a b hab hbne
    cases hx : m (b ++ (phraseChars
        ++ ' ' :: ((i0 :: irest) ++ frac ++ ' ' :: ([c1, c2, c3] ++ post)))) with
    | none => rfl
    | some x =>
      exfalso
      have hs := hm _ x hx
      have hpos := huniqpos a _ (by rw [hclean, hab, List.append_assoc]) hs
      have hlen2 : pre.length = a.length + b.length := by rw [hab, List.length_append]
      have hbpos : b.length ≠ 0 := fun h0 => hbne (List.length_eq_zero.mp h0)
      omega
  have hafter : ∀ (m : List Char → Option (List Char × List Char)),
      (∀ s x, m s = some x → startsWithPhraseCI s = true) →
      m (phraseChars ++ ' ' :: ((i0 :: irest) ++ frac ++ ' ' :: ([c1, c2, c3] ++ post)))
        = none →
      searchWith m (phraseChars
        ++ ' ' :: ((i0 :: irest) ++ frac ++ ' ' :: ([c1, c2, c3] ++ post))) = none := by
    intro m hm hour
    apply searchWith_none
    intro a b hab hbne
    cases hx : m b with
    | none => rfl
    | some x =>
      exfalso
      have hs := hm _ x hx
      have hpos := huniqpos (pre ++ a) b (by rw [hclean, hab, List.append_assoc]) hs
      rw [List.length_append] at hpos
      have ha : a = [] := List.length_eq_zero.mp (by omega)
      rw [ha, List.nil_append] at hab
      rw [← hab, hour] at hx
      cases hx
  have hi0ws : isWsChar i0 = false := not_ws_of_dc i0 (hint i0 (by simp))
  have hc1ws : isWsChar c1 = false := not_ws_of_alpha c1 (halpha c1 (by simp))
  have hws : wsPlus (' ' :: ((i0 :: irest) ++ frac ++ ' ' :: ([c1, c2, c3] ++ post)))
      = some ((i0 :: irest) ++ frac ++ ' ' :: ([c1, c2, c3] ++ post)) := by
    rw [wsPlus, if_pos (by decide), cons_append_assoc, dropWhile_not_head _ _ _ hi0ws]
  have hk1blind : ∀ (c : Char) (r : List Char),
      isDigitCommaChar c = true ∨ c = '.' →
      (wsPlus (c :: r)).bind (codeAlt codesPat1) = none := by
    intro c r hc
    have hcws : isWsChar c = false := by
      rcases hc with hc | rfl
      · exact not_ws_of_dc c hc
      · decide
    rw [wsPlus, if_neg (by rw [hcws]; simp)]
    rfl
  have hk2blind : ∀ (c : Char) (r : List Char),
      isDigitCommaChar c = true ∨ c = '.' →
      alpha3 ((c :: r).dropWhile isWsChar) = none := by
    intro c r hc
    have hcws : isWsChar c = false := by
      rcases hc with hc | rfl
      · exact not_ws_of_dc c hc
      · decide
    have hcal : isAsciiAlpha c = false := by
      rcases hc with hc | rfl
      · exact not_alpha_of_dc c hc
      · decide
    rw [dropWhile_not_head _ _ _ hcws]
    exact alpha3_head_not_alpha c r hcal
  have hk1sp : (wsPlus (' ' :: ([c1, c2, c3] ++ post))).bind (codeAlt codesPat1)
      = codeAlt codesPat1 ([c1, c2, c3] ++ post) := by
    rw [wsPlus, if_pos (by decide), List.cons_append, dropWhile_not_head _ _ _ hc1ws,
      Option.some_bind]
  cases hca : codeAlt codesPat1 ([c1, c2, c3] ++ post) with
  | some y =>
    have hy1 : y.1 = [c1, c2, c3] := by
      obtain ⟨lit, hmem, hmatch, hy1⟩ := codeAlt_some codesPat1 _ y.1 y.2 (by rw [hca])
      rw [hy1]
      rfl
    have hb : (wsPlus (' ' :: ([c1, c2, c3] ++ post))).bind (codeAlt codesPat1)
        = some y := by rw [hk1sp, hca]
    have hAT := amountThen_ok (fun rest => (wsPlus rest).bind (codeAlt codesPat1))
      ([c1, c2, c3] ++ post) y hb frac hfrac (i0 :: irest) (by simp) hint
    have hP1our : matchP1At (phraseChars
        ++ ' ' :: ((i0 :: irest) ++ frac ++ ' ' :: ([c1, c2, c3] ++ post)))
        = some ((i0 :: irest) ++ frac, [c1, c2, c3]) := by
      rw [matchP1At, matchLitCI_append_self]
      simp only [Option.some_bind]
      rw [hws]
      simp only [Option.some_bind]
      rw [hAT]
      simp [hy1]
    have hs1 : searchWith matchP1At (clean_html_text t)
        = some ((i0 :: irest) ++ frac, [c1, c2, c3]) := by
      rw [hskip matchP1At matchP1At_starts]
      exact searchWith_cons_found matchP1At _ _ (by simp [phraseChars]) hP1our
    rw [extract_amount, extractAmountClean, hs1]
    simp
  | none =>
    have hbnone : (wsPlus (' ' :: ([c1, c2, c3] ++ post))).bind (codeAlt codesPat1)
        = none := by rw [hk1sp, hca]
    have hATn := amountThen_none (fun rest => (wsPlus rest).bind (codeAlt codesPat1))
      ([c1, c2, c3] ++ post) hk1blind hbnone frac hfrac (i0 :: irest) (by simp) hint
    have hP1our : matchP1At (phraseChars
        ++ ' ' :: ((i0 :: irest) ++ frac ++ ' ' :: ([c1, c2, c3] ++ post))) = none := by
      rw [matchP1At, matchLitCI_append_self]
      simp only [Option.some_bind]
      rw [hws]
      simp only [Option.some_bind]
      rw [hATn]
      rfl
    have hs1 : searchWith matchP1At (clean_html_text t) = none := by
      rw [hskip matchP1At matchP1At_starts]
      exact hafter matchP1At matchP1At_starts hP1our
    have ha1 : isAsciiAlpha c1 = true := halpha c1 (by simp)
    have ha2 : isAsciiAlpha c2 = true := halpha c2 (by simp)
    have ha3 : isAsciiAlpha c3 = true := halpha c3 (by simp)
    have hk2sp : alpha3 ((' ' :: ([c1, c2, c3] ++ post)).dropWhile isWsChar)
        = some ([c1, c2, c3], post) := by
      rw [List.dropWhile_cons, if_pos (by decide)]
      have hlist : [c1, c2, c3] ++ post = c1 :: c2 :: c3 :: post := rfl
      rw [hlist, dropWhile_not_head _ _ _ hc1ws, alpha3,
        if_pos (by rw [ha1, ha2, ha3]; rfl)]
    have hAT2 := amountThen_ok (fun rest => alpha3 (rest.dropWhile isWsChar))
      ([c1, c2, c3] ++ post) ([c1, c2, c3], post) hk2sp frac hfrac (i0 :: irest)
      (by simp) hint
    have hP2our : matchP2At (phraseChars
        ++ ' ' :: ((i0 :: irest) ++ frac ++ ' ' :: ([c1, c2, c3] ++ post)))
        = some ((i0 :: irest) ++ frac, [c1, c2, c3]) := by
      rw [matchP2At, matchLitCI_append_self]
      simp only [Option.some_bind]
      rw [hws]
      simp only [Option.some_bind]
      rw [hAT2]
      rfl
    have hs2 : searchWith matchP2At (clean_html_text t)
        = some ((i0 :: irest) ++ frac, [c1, c2, c3]) := by
      rw [hskip matchP2At matchP2At_starts]
      exact searchWith_cons_found matchP2At _ _ (by simp [phraseChars]) hP2our
    rw [extract_amount, extractAmountClean, hs1, hs2]
    simp

/-- Witness for C2: the spec example Acme Corp style message. -/
theorem extract_amount_phrase_rule_witness :
    extract_amount ("Acme has sent you 6,600 PHP".data)
        = some (stripCommas ['6', ',', '6', '0', '0'], upperL ['P', 'H', 'P']) :=
  extract_amount_phrase_rule ("Acme has sent you 6,600 PHP".data)
    ("Acme ".data) ['6', ',', '6', '0', '0'] [] ['P', 'H', 'P'] []
    (by decide) (by decide) (by decide) (Or.inl rfl) (by decide) (by decide) (by decide)

/-! ## Claim theorems: the closed currency set (C3) -/

/-- Counterexample to claim C3 as stated: the generic 3-letter rule
(pattern 2) returns any three letters uppercased, here MXN, and the
code-then-amount rule (pattern 6) lands in the two-group branch that takes
the currency group as the amount and the number group as the currency,
here the currency 500; neither value is in the closed set. -/
theorem currency_closed_set_counterexample :
    extract_amount ("x has sent you 100 MXN".data)
        = some (['1', '0', '0'], ['M', 'X', 'N']) ∧
      ['M', 'X', 'N'] ∉ currencySet ∧
      extract_amount ("USD 500".data) = some (['U', 'S', 'D'], ['5', '0', '0']) ∧
      ['5', '0', '0'] ∉ currencySet :=
  ⟨by decide, by decide, by decide, by decide⟩

/-- Claim C3 (amended): whenever `_extract_amount` returns a non-absent
result through any rule other than the generic 3-letter rule (pattern 2,
loop index 1) and the code-then-amount rule (pattern 6, loop index 5), the
returned currency is in the closed set USD, PHP, EUR, GBP, CAD. -/
theorem currency_closed_set_amended (t : List Char) (i : Nat) (a c : List Char)
    (h : extractAmountClean (clean_html_text t) = some (i, a, c))
    (h1 : i ≠ 1) (h5 : i ≠ 5) : c ∈ currencySet := by
  rw [extractAmountClean] at h
  cases e1 : searchWith matchP1At (clean_html_text t) with
  | some x =>
    rw [e1] at h
    obtain ⟨a1, c1⟩ := x
    simp at h
    obtain ⟨s0, hs0⟩ := searchWith_some matchP1At _ (a1, c1) e1
    obtain ⟨s2, r2, hca⟩ := matchP1At_code s0 a1 c1 hs0
    obtain ⟨hne, hmem⟩ := codeAlt_upper_mem codesPat1 (fun l hl => hl) s2 c1 r2 hca
    rw [← h.2.2, if_neg hne]
    exact hmem
  | none =>
    rw [e1] at h
    cases e2 : searchWith matchP2At (clean_html_text t) with
    | some x =>
      rw [e2] at h
      obtain ⟨a1, c1⟩ := x
      simp at h
      exact absurd h.1.symm h1
    | none =>
      rw [e2] at h
      cases e3 : searchWith matchP3At (clean_html_text t) with
      | some x =>
        rw [e3] at h
        obtain ⟨a1, c1⟩ := x
        simp at h
        rw [← h.2.2]
        decide
      | none =>
        rw [e3] at h
        cases e4 : searchWith matchP4At (clean_html_text t) with
        | some x =>
          rw [e4] at h
          obtain ⟨a1, c1⟩ := x
          simp at h
          rw [← h.2.2]
          exact symbolCurrency_mem (clean_html_text t)
        | none =>
          rw [e4] at h
          cases e5 : searchWith matchP5At (clean_html_text t) with
          | some x =>
            rw [e5] at h
            obtain ⟨a1, c1⟩ := x
            simp at h
            obtain ⟨s0, hs0⟩ := searchWith_some matchP5At _ (a1, c1) e5
            obtain ⟨s2, r2, hca⟩ := matchP5At_code s0 a1 c1 hs0
            obtain ⟨hne, hmem⟩ := codeAlt_upper_mem codesPat56
              (fun l hl => by fin_cases hl <;> decide) s2 c1 r2 hca
            rw [← h.2.2, if_neg hne]
            exact hmem
          | none =>
            rw [e5] at h
            cases e6 : searchWith matchP6At (clean_html_text t) with
            | some x =>
              rw [e6] at h
              obtain ⟨c1, a1⟩ := x
              simp at h
              exact absurd h.1.symm h5
            | none => rw [e6] at h; cases h

/-- Witness for C3 at a concrete pattern-5 extraction. -/
theorem currency_closed_set_amended_witness : ['E', 'U', 'R'] ∈ currencySet :=
  currency_closed_set_amended ("got 250 eur today".data) 4 ['2', '5', '0']
    ['E', 'U', 'R'] (by decide) (by decide) (by decide)

/-! ## Claim theorems: the symbol-prefixed rule currency (C4) -/

/-- Counterexample to claim C4 as stated: for a text whose only currency
marker is the dollar symbol of the matched amount, the returned currency is
USD, not the process-wide default PHP, although no currency code appears
anywhere in the text; the symbol itself decides, through the
dollar-containment test of the cleaned text. -/
theorem symbol_rule_default_counterexample :
    extract_amount ("Payment of $500 received".data)
        = some (['5', '0', '0'], ['U', 'S', 'D']) ∧
      substrCI ['u', 's', 'd'] (clean_html_text ("Payment of $500 received".data))
        = false ∧
      (['U', 'S', 'D'] : List Char) ≠ ['P', 'H', 'P'] :=
  ⟨by decide, by decide, by decide⟩

/-- Claim C4 (amended): when the symbol-prefixed rule is the first to
match, the currency is taken from a scan of the whole cleaned text: USD if
it contains a dollar sign or the code USD, else EUR for a euro sign or
EUR, else GBP for a pound sign or GBP, else the default PHP.  In
particular a matched dollar symbol itself forces USD, since it is part of
the text. -/
theorem symbol_rule_currency_amended (t : List Char) (x : List Char × List Char)
    (h1 : searchWith matchP1At (clean_html_text t) = none)
    (h2 : searchWith matchP2At (clean_html_text t) = none)
    (h3 : searchWith matchP3At (clean_html_text t) = none)
    (h4 : searchWith matchP4At (clean_html_text t) = some x) :
    extract_amount t = some (stripCommas x.1, symbolCurrency (clean_html_text t)) ∧
      ((clean_html_text t).contains '$' = true →
        symbolCurrency (clean_html_text t) = ['U', 'S', 'D']) := by
  constructor
  · rw [extract_amount, extractAmountClean, h1, h2, h3, h4]
    rfl
  · intro hd
    rw [symbolCurrency,
      if_pos (show ((clean_html_text t).contains '$'
          || substrCI ['u', 's', 'd'] (clean_html_text t)) = true by rw [hd]; rfl)]

/-- Witness for C4 at the concrete dollar-only text. -/
theorem symbol_rule_currency_amended_witness :
    extract_amount ("Payment of $500 received".data)
        = some (stripCommas ['5', '0', '0'],
            symbolCurrency (clean_html_text ("Payment of $500 received".data))) ∧
      ((clean_html_text ("Payment of $500 received".data)).contains '$' = true →
        symbolCurrency (clean_html_text ("Payment of $500 received".data))
          = ['U', 'S', 'D']) :=
  symbol_rule_currency_amended ("Payment of $500 received".data)
    (['5', '0', '0'], " received".data) (by decide) (by decide) (by decide) (by decide)

/-- A payment record as assembled in `_extract_payment_from_message`
(src/paytment_extractor.py, 200-213).  The fields not used by the sync
engines or the claims (subject, from and to addresses, extraction
timestamp, days-ago label) are omitted.  `date` holds the event time of the
original `Date` header as parsed by the Python standard library, `none`
when the header is absent or unparseable (see the file docstring). -/
structure Payment where
  service : String
  sender : String
  amount : String
  currency : String
  date : Option Int
  message_id : String
deriving Repr, DecidableEq

/-! ## `PaymentExtractor._calculate_days_ago` (src/paytment_extractor.py, 413-425) -/

/-- `_calculate_days_ago`: `parsed` is the result of the stdlib RFC-2822
parse of the date header (`none` when the parse raised, which the source
catches), `now` the current time; both in seconds.  `timedelta.days` is
floor division of the elapsed seconds by 86400. -/
def calculate_days_ago (parsed : Option Int) (now : Int) : String :=
  match parsed with
  | none => "Unknown"
  | some d =>
    let days : Int := (now - d).fdiv 86400
    if days = 0 then "Today"
    else if days = 1 then "Yesterday"
    else toString days ++ " days ago"

/-! ## `NotionClient.create_payment_records` (src/notion_client.py, 229-275)

The Notion database is modelled by the list of the `Message ID` values of
its pages, in creation order (creation order is the only structure the
claims mention; no other page property is read back by the repository).
`readOk` states whether the duplicate-read query chain succeeds (on any
exception `_get_existing_message_ids` returns the empty set); `w p` states
whether the API write for record `p` succeeds (on an exception the
`except` branch of the loop counts the record as failed). -/

/-- Aggregate result of one Notion sync run (the dict built at
src/notion_client.py, 267-272). -/
structure SyncResult where
  created : Nat
  skipped_duplicates : Nat
  failed : Nat
  errors : List String
deriving Repr, DecidableEq

/-- The error message appended on a failed write (the exception text at the
end of the Python f-string is abstracted away). -/
def notionErrorMsg (p : Payment) : String :=
  "Failed to create record for " ++ p.sender

/-- `_get_existing_message_ids` (src/notion_client.py, 182-227): on success
the query filters on `Message ID is_not_empty` and skips falsy ids, so
empty ids are never in the returned set; on any exception it returns the
empty set. -/
def get_existing_message_ids (readOk : Bool) (rows : List String) : List String :=
  if readOk then rows.filter (fun i => i ≠ "") else []

/-- The per-record loop of `NotionClient.create_payment_records`
(src/notion_client.py, 241-265): skip when the id is in the known set;
otherwise attempt the write; on success count it created and add the id to
the known set; on failure count it failed and record an error.  Returns the
aggregate result and the store rows after the run. -/
def notionLoop (w : Payment → Bool) :
    List String → List String → List Payment → SyncResult × List String
  | _, rows, [] => (⟨0, 0, 0, []⟩, rows)
  | existing, rows, p :: ps =>
    if p.message_id ∈ existing then
      let r := notionLoop w existing rows ps
      ({ r.1 with skipped_duplicates := r.1.skipped_duplicates + 1 }, r.2)
    else if w p then
      let r := notionLoop w (p.message_id :: existing) (rows ++ [p.message_id]) ps
      ({ r.1 with created := r.1.created + 1 }, r.2)
    else
      let r := notionLoop w existing rows ps
      ({ r.1 with failed := r.1.failed + 1, errors := notionErrorMsg p :: r.1.errors }, r.2)

namespace NotionClient

/-- `NotionClient.create_payment_records`: read the existing ids once, then
run the per-record loop. -/
def create_payment_records (readOk : Bool) (w : Payment → Bool)
    (rows : List String) (ps : List Payment) : SyncResult × List String :=
  notionLoop w (get_existing_message_ids readOk rows) rows ps

end NotionClient

/-! ## `SheetsClient.create_payment_records` (src/sheets_client.py, 132-249)

The spreadsheet is modelled by its list of data rows (rows 4 and below).
`readOk` states whether `get_existing_message_ids` succeeds (it returns the
empty set on any exception); `appendOk` whether the one batch
`append_rows` call succeeds (on failure the whole function raises, modelled
as `Except.error`).  The `sorted` call itself raises `TypeError` on a batch
mixing parsed with missing dates — see `sortRaises` below — and that
exception too escapes through the re-raising outer handler. -/

/-- One data row of the spreadsheet: [Date, Service, Sender, Amount,
Message ID] (src/sheets_client.py, 216-222).  The `strftime` display
formatting of the date cell is abstracted to the parsed event time. -/
structure SheetsRow where
  date : Option Int
  service : String
  sender : String
  amount : String
  message_id : String
deriving Repr, DecidableEq

/-- Result dict of a Sheets run (src/sheets_client.py, 237-242); the empty
batch returns early without the `total_processed` key, hence the option. -/
structure SheetsResult where
  created : Nat
  duplicates : Nat
  errors : Nat
  total_processed : Option Nat
deriving Repr, DecidableEq

/-- `parse_date_for_sorting` (src/sheets_client.py, 157-173): the parsed
event time, or `datetime.min` (the bottom element) when absent or
unparseable. -/
def sortKey (p : Payment) : WithBot Int :=
  match p.date with
  | none => ⊥
  | some d => (d : WithBot Int)

/-- `sorted(payments, key=parse_date_for_sorting, reverse=True)`: a stable
descending sort, which is insertion sort along the relation comparing keys
downward.  This total function describes only the runs on which the Python
sort returns; see `sortRaises` for the runs on which it raises instead. -/
def sortPaymentsDesc (ps : List Payment) : List Payment :=
  List.insertionSort (fun a b => sortKey b ≤ sortKey a) ps

/-- The crash condition of the sort at src/sheets_client.py line 175.
`parse_date_for_sorting` returns the naive `datetime.min` for an absent or
unparseable date but a tz-aware datetime for a parsed one, and Python
refuses to order a naive against an aware datetime, so `sorted` raises
`TypeError` exactly when the batch holds both kinds: such a batch has at
least two elements, and inserting the first element of the minority kind
compares it against a sorted prefix made of the other kind, forcing a
cross comparison; a homogeneous batch never makes one. -/
def sortRaises (ps : List Payment) : Bool :=
  ps.any (fun p => p.date.isNone) && ps.any (fun p => p.date.isSome)

/-- Build the row for one payment (src/sheets_client.py, 190-222): the
amount cell is `f"{amount} {currency}"`, or empty when the amount is
falsy. -/
def mkSheetsRow (p : Payment) : SheetsRow :=
  { date := p.date
    service := p.service
    sender := p.sender
    amount := if p.amount = "" then "" else p.amount ++ " " ++ p.currency
    message_id := p.message_id }

/-- The staging loop of `SheetsClient.create_payment_records`
(src/sheets_client.py, 180-229): duplicates are skipped, staged records are
appended to `rows_to_insert` and their ids added to the known set at once;
the loop body is total, so the per-record exception counter stays zero.
Returns (rows_to_insert, duplicate_count). -/
def sheetsStage (existing : List String) : List Payment → List SheetsRow × Nat
  | [] => ([], 0)
  | p :: ps =>
    if p.message_id ∈ existing then
      let r := sheetsStage existing ps
      (r.1, r.2 + 1)
    else
      let r := sheetsStage (p.message_id :: existing) ps
      (mkSheetsRow p :: r.1, r.2)

namespace SheetsClient

/-- `SheetsClient.get_existing_message_ids` (src/sheets_client.py,
108-130): the `Message ID` column with empty values discarded, or the empty
set when the read fails. -/
def get_existing_message_ids (readOk : Bool) (rows : List SheetsRow) : List String :=
  if readOk then (rows.map SheetsRow.message_id).filter (fun i => i ≠ "") else []

/-- `SheetsClient.create_payment_records`: early return on an empty batch;
otherwise read existing ids, sort newest first, stage non-duplicates, and
append all staged rows in one batch write.  The outer handler (lines
247-249) re-raises whatever escapes, which happens on two paths: the
`TypeError` of the sort when the batch mixes parsed with missing dates
(`sortRaises`), and a failing batch `append_rows` call. -/
def create_payment_records (readOk appendOk : Bool)
    (rows : List SheetsRow) (ps : List Payment) :
    Except String (SheetsResult × List SheetsRow) :=
  if ps = [] then
    .ok ({ created := 0, duplicates := 0, errors := 0, total_processed := none }, rows)
  else if sortRaises ps then .error "TypeError: naive and aware datetimes"
  else
    if (sheetsStage (get_existing_message_ids readOk rows) (sortPaymentsDesc ps)).1 = [] then
      .ok ({ created := 0
             duplicates := (sheetsStage (get_existing_message_ids readOk rows)
               (sortPaymentsDesc ps)).2
             errors := 0
             total_processed := some ps.length }, rows)
    else if appendOk then
      .ok ({ created := (sheetsStage (get_existing_message_ids readOk rows)
               (sortPaymentsDesc ps)).1.length
             duplicates := (sheetsStage (get_existing_message_ids readOk rows)
               (sortPaymentsDesc ps)).2
             errors := 0
             total_processed := some ps.length },
           rows ++ (sheetsStage (get_existing_message_ids readOk rows)
             (sortPaymentsDesc ps)).1)
    else .error "append_rows failed"

end SheetsClient

/-- Sort key of a stored spreadsheet row (its date cell). -/
def rowKey (r : SheetsRow) : WithBot Int :=
  match r.date with
  | none => ⊥
  | some d => (d : WithBot Int)

/-! ## Helper lemmas about the sync loops -/

theorem notionLoop_all_new : ∀ (ps : List Payment) (existing rows : List String),
    (∀ p ∈ ps, p.message_id ∉ existing) →
    ps.Pairwise (fun a b => a.message_id ≠ b.message_id) →
    notionLoop (fun _ => true) existing rows ps
      = (⟨ps.length, 0, 0, []⟩, rows ++ ps.map Payment.message_id) := by
  intro ps
  induction ps with
  | nil => intro existing rows _ _; simp [notionLoop]
  | cons p ps ih =>
    intro existing rows h1 h2
    have hp : p.message_id ∉ existing := h1 p (by simp)
    have hrest : ∀ q ∈ ps, q.message_id ∉ p.message_id :: existing := by
      intro q hq
      simp only [List.mem_cons]
      rintro (heq | hmem)
      · exact (List.pairwise_cons.mp h2).1 q hq heq.symm
      · exact h1 q (List.mem_cons_of_mem _ hq) hmem
    rw [notionLoop, if_neg hp]
    simp only [if_pos rfl]
    rw [ih (p.message_id :: existing) (rows ++ [p.message_id]) hrest
      (List.pairwise_cons.mp h2).2]
    simp

theorem notionLoop_all_dup : ∀ (w : Payment → Bool) (ps : List Payment)
    (existing rows : List String),
    (∀ p ∈ ps, p.message_id ∈ existing) →
    notionLoop w existing rows ps = (⟨0, ps.length, 0, []⟩, rows) := by
  intro w ps
  induction ps with
  | nil => intro existing rows _; simp [notionLoop]
  | cons p ps ih =>
    intro existing rows h1
    rw [notionLoop, if_pos (h1 p (by simp))]
    rw [ih existing rows (fun q hq => h1 q (List.mem_cons_of_mem _ hq))]
    rfl

theorem notionLoop_accounting : ∀ (w : Payment → Bool) (ps : List Payment)
    (existing rows : List String),
    (notionLoop w existing rows ps).1.created
        + (notionLoop w existing rows ps).1.skipped_duplicates
        + (notionLoop w existing rows ps).1.failed = ps.length ∧
      (notionLoop w existing rows ps).1.errors.length
        = (notionLoop w existing rows ps).1.failed := by
  intro w ps
  induction ps with
  | nil => intro existing rows; simp [notionLoop]
  | cons p ps ih =>
    intro existing rows
    by_cases hmem : p.message_id ∈ existing
    · rw [notionLoop, if_pos hmem]
      have := ih existing rows
      simp only [List.length_cons]
      constructor
      · omega
      · exact this.2
    · by_cases hw : w p
      · rw [notionLoop, if_neg hmem, if_pos hw]
        have := ih (p.message_id :: existing) (rows ++ [p.message_id])
        simp only [List.length_cons]
        constructor
        · omega
        · exact this.2
      · rw [notionLoop, if_neg hmem, if_neg hw]
        have := ih existing rows
        refine ⟨?_, ?_⟩
        · show (notionLoop w existing rows ps).1.created
              + (notionLoop w existing rows ps).1.skipped_duplicates
              + ((notionLoop w existing rows ps).1.failed + 1) = ps.length + 1
          omega
        · show (notionErrorMsg p :: (notionLoop w existing rows ps).1.errors).length
              = (notionLoop w existing rows ps).1.failed + 1
          rw [List.length_cons]
          omega

theorem sheetsStage_all_new : ∀ (ps : List Payment) (existing : List String),
    (∀ p ∈ ps, p.message_id ∉ existing) →
    ps.Pairwise (fun a b => a.message_id ≠ b.message_id) →
    sheetsStage existing ps = (ps.map mkSheetsRow, 0) := by
  intro ps
  induction ps with
  | nil => intro existing _ _; simp [sheetsStage]
  | cons p ps ih =>
    intro existing h1 h2
    have hp : p.message_id ∉ existing := h1 p (by simp)
    have hrest : ∀ q ∈ ps, q.message_id ∉ p.message_id :: existing := by
      intro q hq
      simp only [List.mem_cons]
      rintro (heq | hmem)
      · exact (List.pairwise_cons.mp h2).1 q hq heq.symm
      · exact h1 q (List.mem_cons_of_mem _ hq) hmem
    rw [sheetsStage, if_neg hp, ih (p.message_id :: existing) hrest
      (List.pairwise_cons.mp h2).2]
    rfl

theorem sheetsStage_all_dup : ∀ (ps : List Payment) (existing : List String),
    (∀ p ∈ ps, p.message_id ∈ existing) →
    sheetsStage existing ps = ([], ps.length) := by
  intro ps
  induction ps with
  | nil => intro existing _; simp [sheetsStage]
  | cons p ps ih =>
    intro existing h1
    rw [sheetsStage, if_pos (h1 p (by simp))]
    rw [ih existing (fun q hq => h1 q (List.mem_cons_of_mem _ hq))]
    rfl

theorem sheetsStage_sublist : ∀ (ps : List Payment) (existing : List String),
    (sheetsStage existing ps).1.Sublist (ps.map mkSheetsRow) := by
  intro ps
  induction ps with
  | nil => intro existing; simp [sheetsStage]
  | cons p ps ih =>
    intro existing
    by_cases hmem : p.message_id ∈ existing
    · rw [sheetsStage, if_pos hmem]
      exact (ih existing).cons _
    · rw [sheetsStage, if_neg hmem]
      exact (ih (p.message_id :: existing)).cons₂ _

/-! ## Claim theorems: error handling and accounting of the sync engines -/

/-- Claim C10: every record of a Notion sync batch lands in exactly one of
the three outcome classes, so created + skipped_duplicates + failed equals
the batch size and the error list has exactly `failed` entries, for every
store state, read outcome and write oracle. -/
theorem notion_sync_accounting (readOk : Bool) (w : Payment → Bool)
    (rows : List String) (ps : List Payment) :
    (NotionClient.create_payment_records readOk w rows ps).1.created
        + (NotionClient.create_payment_records readOk w rows ps).1.skipped_duplicates
        + (NotionClient.create_payment_records readOk w rows ps).1.failed = ps.length ∧
      (NotionClient.create_payment_records readOk w rows ps).1.errors.length
        = (NotionClient.create_payment_records readOk w rows ps).1.failed :=
  notionLoop_accounting w ps (get_existing_message_ids readOk rows) rows

/-- Claim C8: a failing write of one record does not abort the Notion sync
run: the record contributes exactly one `failed` and one error entry, the
store is untouched by it, and the remaining records are processed exactly
as they would have been; the loop is a total function, so a per-record
failure never raises. -/
theorem notion_write_failure_isolated (w : Payment → Bool)
    (existing rows : List String) (p : Payment) (ps : List Payment)
    (hw : w p = false) (hmem : p.message_id ∉ existing) :
    notionLoop w existing rows (p :: ps)
      = ({ created := (notionLoop w existing rows ps).1.created
           skipped_duplicates := (notionLoop w existing rows ps).1.skipped_duplicates
           failed := (notionLoop w existing rows ps).1.failed + 1
           errors := notionErrorMsg p :: (notionLoop w existing rows ps).1.errors },
         (notionLoop w existing rows ps).2) := by
  rw [notionLoop, if_neg hmem]
  simp [hw]

/-- Witness for C8 at a concrete failing record. -/
theorem notion_write_failure_isolated_witness :
    notionLoop (fun _ => false) [] []
        [⟨"Wise", "Ann", "5", "USD", some 0, "m1"⟩]
      = (⟨0, 0, 1, ["Failed to create record for Ann"]⟩, []) := by
  rw [notion_write_failure_isolated (fun _ => false) [] []
    ⟨"Wise", "Ann", "5", "USD", some 0, "m1"⟩ [] rfl (by simp)]
  simp [notionLoop, notionErrorMsg]

/-- Claim C9: the relative-age computation is a total function of the
parsed date and the current time; a failed parse yields Unknown, zero
elapsed days Today, one elapsed day Yesterday, and any other day count N
the string N days ago. -/
theorem days_ago_spec :
    (∀ now : Int, calculate_days_ago none now = "Unknown") ∧
      (∀ now d : Int, (now - d).fdiv 86400 = 0 →
        calculate_days_ago (some d) now = "Today") ∧
      (∀ now d : Int, (now - d).fdiv 86400 = 1 →
        calculate_days_ago (some d) now = "Yesterday") ∧
      (∀ now d : Int, (now - d).fdiv 86400 ≠ 0 → (now - d).fdiv 86400 ≠ 1 →
        calculate_days_ago (some d) now
          = toString ((now - d).fdiv 86400) ++ " days ago") := by
  refine ⟨fun now => rfl, fun now d h => ?_, fun now d h => ?_, fun now d h0 h1 => ?_⟩
  · simp [calculate_days_ago, h]
  · simp [calculate_days_ago, h]
  · simp [calculate_days_ago, h0, h1]

/-- Witness for C9 on concrete dates, including a malformed (unparsed)
header and a two-day-old message. -/
theorem days_ago_spec_witness :
    calculate_days_ago none 0 = "Unknown" ∧
      calculate_days_ago (some 0) 3600 = "Today" ∧
      calculate_days_ago (some 0) 90000 = "Yesterday" ∧
      calculate_days_ago (some 0) 900000 = "10 days ago" := by
  refine ⟨days_ago_spec.1 0, days_ago_spec.2.1 3600 0 (by decide),
    days_ago_spec.2.2.1 90000 0 (by decide), ?_⟩
  rw [days_ago_spec.2.2.2 900000 0 (by decide) (by decide)]
  rfl

/-! ## Sort facts for the Sheets engine -/

instance : IsTotal Payment (fun a b => sortKey b ≤ sortKey a) :=
  ⟨fun a b => le_total (sortKey b) (sortKey a)⟩

instance : IsTrans Payment (fun a b => sortKey b ≤ sortKey a) :=
  ⟨fun _ _ _ h1 h2 => le_trans h2 h1⟩

theorem sortPaymentsDesc_sorted (ps : List Payment) :
    List.Pairwise (fun a b => sortKey b ≤ sortKey a) (sortPaymentsDesc ps) :=
  List.sorted_insertionSort _ ps

theorem sortPaymentsDesc_perm (ps : List Payment) :
    List.Perm (sortPaymentsDesc ps) ps :=
  List.perm_insertionSort _ ps

theorem sortPaymentsDesc_pairwise_ne (ps : List Payment)
    (h : ps.Pairwise (fun a b => a.message_id ≠ b.message_id)) :
    (sortPaymentsDesc ps).Pairwise (fun a b => a.message_id ≠ b.message_id) :=
  ((sortPaymentsDesc_perm ps).pairwise_iff (fun hab => Ne.symm hab)).mpr h

theorem sortPaymentsDesc_length (ps : List Payment) :
    (sortPaymentsDesc ps).length = ps.length :=
  (sortPaymentsDesc_perm ps).length_eq

theorem sortPaymentsDesc_eq_nil (ps : List Payment)
    (h : sortPaymentsDesc ps = []) : ps = [] :=
  List.eq_nil_of_length_eq_zero (by rw [← sortPaymentsDesc_length ps, h]; rfl)

theorem map_id_map_mkSheetsRow (ps : List Payment) :
    (ps.map mkSheetsRow).map SheetsRow.message_id = ps.map Payment.message_id := by
  rw [List.map_map]
  rfl

/-! ## Claim theorems: duplicate-read degradation (C7) -/

/-- A payment with a parsed date; next to `pNoDate` it makes a mixed
batch. -/
def pDated : Payment := ⟨"Wise", "Ann", "10", "USD", some 200, "w1"⟩

/-- A payment whose date header did not parse. -/
def pNoDate : Payment := ⟨"Paypal", "Bob", "7", "EUR", none, "w2"⟩

/-- Counterexample to claim C7 as stated: the claim promises that a
distinct-id batch whose writes would succeed still yields created = N when
the duplicate read fails, rather than aborting; but on a two-record batch
in which one date parsed and the other did not, the Sheets sort compares
the naive `datetime.min` fallback against a tz-aware datetime and raises
`TypeError`, re-raised at src/sheets_client.py 247-249, so the run aborts
with nothing created — whatever the read outcome. -/
theorem sync_read_degraded_counterexample :
    SheetsClient.create_payment_records false true [] [pDated, pNoDate]
      = .error "TypeError: naive and aware datetimes" := by
  rfl

/-- Claim C7 (amended): when the duplicate read fails, both engines degrade
to the empty known set instead of aborting, and a batch of pairwise-distinct
records whose writes succeed is created in full, with no false duplicate
skips — unconditionally in the Notion engine, and in the Sheets engine
provided the batch does not mix records with a parsed date and records
without one (a mixed batch makes the sort raise before anything is staged,
independently of the read outcome). -/
theorem sync_read_degraded (ps : List Payment) (rows : List String)
    (rows2 : List SheetsRow)
    (hdist : ps.Pairwise (fun a b => a.message_id ≠ b.message_id))
    (hmix : sortRaises ps = false) :
    ((NotionClient.create_payment_records false (fun _ => true) rows ps).1.created
        = ps.length ∧
      (NotionClient.create_payment_records false (fun _ => true) rows ps).1.skipped_duplicates
        = 0) ∧
    ∃ r st, SheetsClient.create_payment_records false true rows2 ps = .ok (r, st) ∧
      r.created = ps.length ∧ r.duplicates = 0 := by
  constructor
  · rw [NotionClient.create_payment_records,
      show get_existing_message_ids false rows = [] from rfl,
      notionLoop_all_new ps [] rows (by simp) hdist]
    exact ⟨rfl, rfl⟩
  · by_cases hps : ps = []
    · subst hps
      exact ⟨_, rows2, rfl, rfl, rfl⟩
    · have hsortdist := sortPaymentsDesc_pairwise_ne ps hdist
      have hstage := sheetsStage_all_new (sortPaymentsDesc ps) [] (by simp) hsortdist
      have hnil : ¬ (sortPaymentsDesc ps).map mkSheetsRow = [] := by
        intro hmapnil
        exact hps (sortPaymentsDesc_eq_nil ps (List.map_eq_nil_iff.mp hmapnil))
      refine ⟨⟨(sortPaymentsDesc ps).length, 0, 0, some ps.length⟩,
        rows2 ++ (sortPaymentsDesc ps).map mkSheetsRow, ?_, ?_, rfl⟩
      · rw [SheetsClient.create_payment_records, if_neg hps,
          if_neg (show ¬ sortRaises ps = true by simp [hmix]),
          show SheetsClient.get_existing_message_ids false rows2 = [] from rfl]
        simp only [hstage, List.length_map]
        rw [if_neg hnil]
        rfl
      · simp [sortPaymentsDesc_length]

/-- Witness for C7: the store already holds the id, yet with a failed
duplicate read the batch is still created in full. -/
theorem sync_read_degraded_witness :
    ((NotionClient.create_payment_records false (fun _ => true) ["w1"]
        [⟨"Wise", "Ann", "10", "USD", some 200, "w1"⟩]).1.created = 1 ∧
      (NotionClient.create_payment_records false (fun _ => true) ["w1"]
        [⟨"Wise", "Ann", "10", "USD", some 200, "w1"⟩]).1.skipped_duplicates = 0) ∧
    ∃ r st, SheetsClient.create_payment_records false true []
        [⟨"Wise", "Ann", "10", "USD", some 200, "w1"⟩] = .ok (r, st) ∧
      r.created = 1 ∧ r.duplicates = 0 :=
  sync_read_degraded [⟨"Wise", "Ann", "10", "USD", some 200, "w1"⟩] ["w1"] []
    (by simp) rfl

/-! ## Claim theorems: newest-first ordering (C6) -/

/-- An older and a newer payment, given to the engines oldest first. -/
def pOldC6 : Payment := ⟨"Wise", "Old", "1", "USD", some 0, "a"⟩

/-- The newer companion of `pOldC6`. -/
def pNewC6 : Payment := ⟨"Wise", "New", "2", "USD", some 100, "b"⟩

/-- Counterexample to claim C6 as stated: the Notion engine
(src/notion_client.py, 229-275, named as a source of the claim) never sorts
the batch; two new records given oldest first are emitted to the store in
input order, although the first has the strictly older event timestamp. -/
theorem notion_emission_order_counterexample :
    (NotionClient.create_payment_records true (fun _ => true) [] [pOldC6, pNewC6]).2
        = ["a", "b"] ∧
      sortKey pOldC6 < sortKey pNewC6 := by
  constructor
  · rfl
  · decide

/-- Claim C6 (amended): it is the Sheets engine that sorts the incoming
batch by event timestamp before duplicate filtering and writing, so the
rows it appends to the store are in newest-first order whatever the
extraction order was; the Notion engine writes in input order. -/
theorem sheets_emits_newest_first (readOk : Bool) (rows : List SheetsRow)
    (ps : List Payment) (r : SheetsResult) (rows2 : List SheetsRow)
    (h : SheetsClient.create_payment_records readOk true rows ps = .ok (r, rows2)) :
    ∃ ins, rows2 = rows ++ ins ∧
      ins.Pairwise (fun a b => rowKey b ≤ rowKey a) := by
  by_cases hps : ps = []
  · rw [SheetsClient.create_payment_records, if_pos hps] at h
    simp only [Except.ok.injEq, Prod.mk.injEq] at h
    exact ⟨[], by rw [← h.2, List.append_nil], List.Pairwise.nil⟩
  · rw [SheetsClient.create_payment_records, if_neg hps] at h
    by_cases hcr : sortRaises ps = true
    · rw [if_pos hcr] at h
      simp at h
    rw [if_neg hcr] at h
    by_cases hstaged : (sheetsStage (SheetsClient.get_existing_message_ids readOk rows)
        (sortPaymentsDesc ps)).1 = []
    · rw [if_pos hstaged] at h
      simp only [Except.ok.injEq, Prod.mk.injEq] at h
      exact ⟨[], by rw [← h.2, List.append_nil], List.Pairwise.nil⟩
    · rw [if_neg hstaged, if_pos rfl] at h
      simp only [Except.ok.injEq, Prod.mk.injEq] at h
      refine ⟨(sheetsStage (SheetsClient.get_existing_message_ids readOk rows)
        (sortPaymentsDesc ps)).1, h.2.symm, ?_⟩
      have hsorted := sortPaymentsDesc_sorted ps
      have hmap : ((sortPaymentsDesc ps).map mkSheetsRow).Pairwise
          (fun a b => rowKey b ≤ rowKey a) :=
        (List.pairwise_map).mpr hsorted
      exact hmap.sublist (sheetsStage_sublist (sortPaymentsDesc ps) _)

/-- Witness for C6: the engine appends the two rows newest first even
though the batch arrived oldest first. -/
theorem sheets_emits_newest_first_witness :
    ∃ ins, [mkSheetsRow pNewC6, mkSheetsRow pOldC6] = [] ++ ins ∧
      ins.Pairwise (fun a b => rowKey b ≤ rowKey a) :=
  sheets_emits_newest_first true [] [pOldC6, pNewC6] ⟨2, 0, 0, some 2⟩
    [mkSheetsRow pNewC6, mkSheetsRow pOldC6] rfl

/-! ## Claim theorems: intra-batch duplicates (C5) -/

/-- A payment whose write will be made to fail below. -/
def pDupX : Payment := ⟨"Wise", "x", "1", "USD", some 5, "m"⟩

/-- A second payment with the same message id as `pDupX`. -/
def pDupY : Payment := ⟨"Wise", "y", "1", "USD", some 3, "m"⟩

/-- A same-id companion of `pDupX` whose date header did not parse. -/
def pDupN : Payment := ⟨"Paypal", "n", "2", "EUR", none, "m"⟩

/-- Counterexample to claim C5 as stated, in two parts.  In the Notion
engine the message id is added to the known set only after the write has
succeeded, not when the record is staged; when the first of two same-id
records fails to write, the second is not skipped as a duplicate but
created, so the batch ends with one created, zero skipped and one failed
instead of one created and one skipped.  And in the Sheets engine a
same-id pair mixing a parsed with a missing date is never resolved to one
created and one skipped: the sort raises `TypeError` before any record is
staged and the run aborts. -/
theorem notion_staging_counterexample :
    (NotionClient.create_payment_records true (fun p => p.sender == "y") []
        [pDupX, pDupY]).1
      = ⟨1, 0, 1, [notionErrorMsg pDupX]⟩ ∧
    SheetsClient.create_payment_records true true [] [pDupX, pDupN]
      = .error "TypeError: naive and aware datetimes" := by
  exact ⟨rfl, rfl⟩

/-- Claim C5 (amended): the Sheets engine adds the id to the known set when
the record is staged, before the batch write lands; the Notion engine adds
it only once the write of the record has succeeded.  Hence for a batch of
two records sharing a message id that is not in the store, when the writes
succeed and the pair does not mix a parsed with a missing date (which
would make the Sheets sort raise before staging), exactly one record is
created and the other is skipped as a duplicate, in both engines. -/
theorem same_id_batch_one_created (rows : List String) (rows2 : List SheetsRow)
    (p q : Payment) (hid : p.message_id = q.message_id)
    (hn : p.message_id ∉ rows)
    (hs : p.message_id ∉ rows2.map SheetsRow.message_id)
    (hmix : sortRaises [p, q] = false) :
    ((NotionClient.create_payment_records true (fun _ => true) rows [p, q]).1.created = 1 ∧
      (NotionClient.create_payment_records true (fun _ => true) rows
        [p, q]).1.skipped_duplicates = 1) ∧
    ∃ r st, SheetsClient.create_payment_records true true rows2 [p, q] = .ok (r, st) ∧
      r.created = 1 ∧ r.duplicates = 1 := by
  have hnf : p.message_id ∉ get_existing_message_ids true rows := by
    rw [get_existing_message_ids, if_pos rfl]
    intro hmem
    exact hn (List.mem_filter.mp hmem).1
  constructor
  · have hq : q.message_id ∈ p.message_id :: get_existing_message_ids true rows := by
      rw [← hid]
      exact List.mem_cons_self _ _
    rw [NotionClient.create_payment_records]
    simp [notionLoop, hnf, hq]
  · have hsf : p.message_id ∉ SheetsClient.get_existing_message_ids true rows2 := by
      rw [SheetsClient.get_existing_message_ids, if_pos rfl]
      intro hmem
      exact hs (List.mem_filter.mp hmem).1
    have hsort : sortPaymentsDesc [p, q] = [p, q] ∨ sortPaymentsDesc [p, q] = [q, p] := by
      rw [sortPaymentsDesc]
      by_cases hr : sortKey q ≤ sortKey p
      · left
        simp [List.insertionSort, List.orderedInsert, hr]
      · right
        simp [List.insertionSort, List.orderedInsert, hr]
    have hstage : ∀ x y : Payment, x.message_id = p.message_id →
        y.message_id = p.message_id →
        sheetsStage (SheetsClient.get_existing_message_ids true rows2) [x, y]
          = ([mkSheetsRow x], 1) := by
      intro x y hx hy
      rw [sheetsStage, if_neg (by rw [hx]; exact hsf)]
      rw [sheetsStage, if_pos (by rw [hy, ← hx]; exact List.mem_cons_self _ _)]
      rw [sheetsStage]
    rcases hsort with hcase | hcase
    · refine ⟨⟨1, 1, 0, some 2⟩,
        rows2 ++ [mkSheetsRow p], ?_, rfl, rfl⟩
      rw [SheetsClient.create_payment_records, if_neg (by simp),
        if_neg (show ¬ sortRaises [p, q] = true by simp [hmix]), hcase,
        hstage p q rfl hid.symm]
      simp
    · refine ⟨⟨1, 1, 0, some 2⟩,
        rows2 ++ [mkSheetsRow q], ?_, rfl, rfl⟩
      rw [SheetsClient.create_payment_records, if_neg (by simp),
        if_neg (show ¬ sortRaises [p, q] = true by simp [hmix]), hcase,
        hstage q p hid.symm rfl]
      simp

/-- Witness for C5 on a concrete same-id pair against an empty store. -/
theorem same_id_batch_one_created_witness :
    ((NotionClient.create_payment_records true (fun _ => true) [] [pDupX, pDupY]).1.created
        = 1 ∧
      (NotionClient.create_payment_records true (fun _ => true) []
        [pDupX, pDupY]).1.skipped_duplicates = 1) ∧
    ∃ r st, SheetsClient.create_payment_records true true [] [pDupX, pDupY] = .ok (r, st) ∧
      r.created = 1 ∧ r.duplicates = 1 :=
  same_id_batch_one_created [] [] pDupX pDupY rfl (by simp) (by simp) rfl

/-! ## Claim theorems: idempotence across runs (C1) -/

/-- A payment whose transport-level message id is the empty string. -/
def pEmptyId : Payment := ⟨"Wise", "Ann", "1", "USD", some 0, ""⟩

/-- Counterexample to claim C1 as stated, in two parts.  Both duplicate
reads skip empty message ids (`is_not_empty` filter in the Notion query,
`discard("")` in the Sheets read), so a batch consisting of one record
with the empty message id, against a store containing none of the batch
ids, is created again by the second run: the second run returns created
one and zero skipped duplicates, not created zero and one skipped
duplicate.  And in the Sheets engine even the first run falls short of
created = N on a distinct-nonempty-id batch that mixes a missing with a
parsed date: the sort raises `TypeError` and the run aborts with nothing
created. -/
theorem sync_idempotence_counterexample :
    (NotionClient.create_payment_records true (fun _ => true) [] [pEmptyId]).1
        = ⟨1, 0, 0, []⟩ ∧
      (NotionClient.create_payment_records true (fun _ => true)
          (NotionClient.create_payment_records true (fun _ => true) [] [pEmptyId]).2
          [pEmptyId]).1
        = ⟨1, 0, 0, []⟩ ∧
      SheetsClient.create_payment_records true true [] [pNoDate, pDated]
        = .error "TypeError: naive and aware datetimes" := by
  exact ⟨rfl, rfl, rfl⟩

/-- Claim C1 (amended): for a batch of records with pairwise-distinct and
nonempty message ids, none of which is in the store, no mixing of records
with a parsed date and records without one (which would make the Sheets
sort raise), and with the duplicate reads and all writes succeeding, the
first run creates all N records with zero duplicate skips, and rerunning
the same batch against the resulting store creates zero and skips all N
as duplicates, in both engines. -/
theorem sync_idempotent (ps : List Payment) (rows : List String)
    (rows2 : List SheetsRow)
    (hdist : ps.Pairwise (fun a b => a.message_id ≠ b.message_id))
    (hne : ∀ p ∈ ps, p.message_id ≠ "")
    (hn : ∀ p ∈ ps, p.message_id ∉ rows)
    (hs : ∀ p ∈ ps, p.message_id ∉ rows2.map SheetsRow.message_id)
    (hmix : sortRaises ps = false) :
    ((NotionClient.create_payment_records true (fun _ => true) rows ps).1
        = ⟨ps.length, 0, 0, []⟩ ∧
      (NotionClient.create_payment_records true (fun _ => true)
          (NotionClient.create_payment_records true (fun _ => true) rows ps).2 ps).1
        = ⟨0, ps.length, 0, []⟩) ∧
    ∃ r1 st1 r2 st2,
      SheetsClient.create_payment_records true true rows2 ps = .ok (r1, st1) ∧
      r1.created = ps.length ∧ r1.duplicates = 0 ∧
      SheetsClient.create_payment_records true true st1 ps = .ok (r2, st2) ∧
      r2.created = 0 ∧ r2.duplicates = ps.length := by
  have hrun1 : NotionClient.create_payment_records true (fun _ => true) rows ps
      = (⟨ps.length, 0, 0, []⟩, rows ++ ps.map Payment.message_id) := by
    rw [NotionClient.create_payment_records]
    rw [notionLoop_all_new ps (get_existing_message_ids true rows) rows ?_ hdist]
    intro p hp hmem
    rw [get_existing_message_ids, if_pos rfl] at hmem
    exact hn p hp (List.mem_filter.mp hmem).1
  constructor
  · refine ⟨by rw [hrun1], ?_⟩
    rw [hrun1]
    rw [NotionClient.create_payment_records]
    rw [notionLoop_all_dup _ ps _ _ ?_]
    intro p hp
    rw [get_existing_message_ids, if_pos rfl]
    refine List.mem_filter.mpr ⟨?_, by simpa using hne p hp⟩
    exact List.mem_append_right rows (List.mem_map_of_mem Payment.message_id hp)
  · by_cases hps : ps = []
    · subst hps
      exact ⟨⟨0, 0, 0, none⟩, rows2, ⟨0, 0, 0, none⟩, rows2, rfl, rfl, rfl, rfl, rfl, rfl⟩
    · have hsortdist := sortPaymentsDesc_pairwise_ne ps hdist
      have hmemsort : ∀ q ∈ sortPaymentsDesc ps, q ∈ ps := by
        intro q hq
        exact (sortPaymentsDesc_perm ps).mem_iff.mp hq
      have hstage1 : sheetsStage (SheetsClient.get_existing_message_ids true rows2)
          (sortPaymentsDesc ps) = ((sortPaymentsDesc ps).map mkSheetsRow, 0) := by
        refine sheetsStage_all_new (sortPaymentsDesc ps) _ ?_ hsortdist
        intro q hq hmem
        rw [SheetsClient.get_existing_message_ids, if_pos rfl] at hmem
        exact hs q (hmemsort q hq) (List.mem_filter.mp hmem).1
      have hnil : ¬ (sortPaymentsDesc ps).map mkSheetsRow = [] := by
        intro hmapnil
        exact hps (sortPaymentsDesc_eq_nil ps (List.map_eq_nil_iff.mp hmapnil))
      have hrunS1 : SheetsClient.create_payment_records true true rows2 ps
          = .ok (⟨ps.length, 0, 0, some ps.length⟩,
              rows2 ++ (sortPaymentsDesc ps).map mkSheetsRow) := by
        rw [SheetsClient.create_payment_records, if_neg hps,
          if_neg (show ¬ sortRaises ps = true by simp [hmix])]
        simp only [hstage1]
        rw [if_neg hnil]
        simp [sortPaymentsDesc_length]
      have hstage2 : sheetsStage
          (SheetsClient.get_existing_message_ids true
            (rows2 ++ (sortPaymentsDesc ps).map mkSheetsRow))
          (sortPaymentsDesc ps) = ([], (sortPaymentsDesc ps).length) := by
        refine sheetsStage_all_dup (sortPaymentsDesc ps) _ ?_
        intro q hq
        rw [SheetsClient.get_existing_message_ids, if_pos rfl]
        refine List.mem_filter.mpr ⟨?_, by simpa using hne q (hmemsort q hq)⟩
        rw [List.map_append, map_id_map_mkSheetsRow]
        exact List.mem_append_right _ (List.mem_map_of_mem Payment.message_id hq)
      refine ⟨⟨ps.length, 0, 0, some ps.length⟩,
        rows2 ++ (sortPaymentsDesc ps).map mkSheetsRow,
        ⟨0, (sortPaymentsDesc ps).length, 0, some ps.length⟩,
        rows2 ++ (sortPaymentsDesc ps).map mkSheetsRow,
        hrunS1, rfl, rfl, ?_, rfl, by simp [sortPaymentsDesc_length]⟩
      rw [SheetsClient.create_payment_records, if_neg hps,
        if_neg (show ¬ sortRaises ps = true by simp [hmix])]
      simp only [hstage2]
      rfl

/-- Witness for C1 on a concrete two-record batch against empty stores. -/
theorem sync_idempotent_witness :
    ((NotionClient.create_payment_records true (fun _ => true) [] [pOldC6, pNewC6]).1
        = ⟨2, 0, 0, []⟩ ∧
      (NotionClient.create_payment_records true (fun _ => true)
          (NotionClient.create_payment_records true (fun _ => true) [] [pOldC6, pNewC6]).2
          [pOldC6, pNewC6]).1
        = ⟨0, 2, 0, []⟩) ∧
    ∃ r1 st1 r2 st2,
      SheetsClient.create_payment_records true true [] [pOldC6, pNewC6] = .ok (r1, st1) ∧
      r1.created = 2 ∧ r1.duplicates = 0 ∧
      SheetsClient.create_payment_records true true st1 [pOldC6, pNewC6] = .ok (r2, st2) ∧
      r2.created = 0 ∧ r2.duplicates = 2 :=
  sync_idempotent [pOldC6, pNewC6] [] []
    (by simp [pOldC6, pNewC6])
    (by intro p hp; fin_cases hp <;> simp [pOldC6, pNewC6])
    (by simp)
    (by simp)
    rfl
